import Mathlib

/-!
Verification development for the `instrumentor` metrics library.

The Python source (`instrumentor/metrics.py`, `instrumentor/registry.py`,
`instrumentor/exposition.py`) is shallowly embedded below:

* numbers that the claims exercise are modelled as `Int` (the library also
  accepts Python floats, which no claim under consideration touches);
* Python dicts (`Metric.counts`, `CollectorRegistry.buffer`, the remote Redis
  hash) are modelled as insertion-ordered association lists with in-place
  update, matching CPython dict semantics;
* Python exceptions are modelled by threading an `Option OpErr` together with
  the state as it stands at the instant the exception is raised (statements
  after the raise point do not execute);
* the remote Redis client is modelled by the hash content of the single
  namespace used, plus a boolean oracle saying whether `pipeline.execute()`
  succeeds for a given round trip.
-/

set_option autoImplicit false

namespace Instrumentor

/-- Sentinel used for the empty label combination (`NO_LABELS_KEY` in
`metrics.py`). -/
def NO_LABELS_KEY : String := "__"

/-- Reserved histogram bucket label (`HISTOGRAM_LABEL`). -/
def HISTOGRAM_LABEL : String := "le"

/-- Reserved summary label (`SUMMARY_LABEL`). -/
def SUMMARY_LABEL : String := "quantile"

/-- Bucket name used for the histogram total count (`INFINITY_FOR_HISTOGRAM`). -/
def INFINITY_FOR_HISTOGRAM : String := "+Inf"

/-- Extension letter for the metric type key (`TYPE_EXTENSION_LETTER`). -/
def TYPE_EXTENSION_LETTER : String := "t"

/-- Extension letter for the metric description key
(`DESCRIPTION_EXTENSION_LETTER`). -/
def DESCRIPTION_EXTENSION_LETTER : String := "d"

/-- `Metric.RESERVED_LABELS` from `metrics.py`. -/
def RESERVED_LABELS : List String := [NO_LABELS_KEY, HISTOGRAM_LABEL, SUMMARY_LABEL]

/-- Split a character list at every occurrence of `sep`, Python
`str.split(sep)` semantics for a one-character separator: the empty list
yields `[[]]`, and separators at the ends yield empty segments. -/
def splitList (sep : Char) : List Char → List (List Char)
  | [] => [[]]
  | c :: cs =>
    if c = sep then [] :: splitList sep cs
    else
      match splitList sep cs with
      | [] => [[c]]
      | t :: ts => (c :: t) :: ts

/-- Python `s.split(sep)` for a one-character separator `sep`. -/
def splitChar (sep : Char) (s : String) : List String :=
  (splitList sep s.data).map String.mk

/-- In-place update of an insertion-ordered association list: CPython dict
assignment `d[k] = v` (overwrite in place, else append at the end). -/
def updAssoc {α : Type} : List (String × α) → String → α → List (String × α)
  | [], k, v => [(k, v)]
  | (k', v') :: rest, k, v =>
    if k' = k then (k, v) :: rest else (k', v') :: updAssoc rest k v

/-- Stable insertion into a `le`-sorted list (insert after equal elements),
auxiliary for `sortBy`. -/
def insertLe {α : Type} (le : α → α → Bool) (x : α) : List α → List α
  | [] => [x]
  | y :: ys => if le y x then y :: insertLe le x ys else x :: y :: ys

/-- Stable insertion sort, modelling Python `sorted`. -/
def sortBy {α : Type} (le : α → α → Bool) (l : List α) : List α :=
  l.foldl (fun acc x => insertLe le x acc) []

/-- Strict lexicographic order on character lists, comparing code points —
Python's string `<`. -/
def listLt : List Char → List Char → Bool
  | [], [] => false
  | [], _ :: _ => true
  | _ :: _, [] => false
  | a :: as, b :: bs => if a < b then true else if b < a then false else listLt as bs

/-- Python string `<`. -/
def strLt (s t : String) : Bool := listLt s.data t.data

/-- Python tuple comparison `(a1, a2) <= (b1, b2)` on pairs of strings. -/
def pairLe (p q : String × String) : Bool :=
  strLt p.1 q.1 || (p.1 == q.1 && (strLt p.2 q.2 || p.2 == q.2))

/-- A value stored in an update action or in the remote hash.  The claims
only exercise integer metric values and the string-valued type/description
records, so Python floats are not modelled. -/
inductive Value where
  | int (i : Int)
  | str (s : String)
deriving DecidableEq, Inhabited

/-- `UpdateAction` from `metrics.py`: key, value, and whether a SET command
(rather than an increment) should be used on Redis. -/
structure UpdateAction where
  key : String
  value : Value
  set : Bool := false
deriving DecidableEq, Inhabited

/-- Which concrete metric class a `MetricState` instantiates. -/
inductive MetricKind where
  | counter
  | gauge
  | histogram
deriving DecidableEq, Inhabited

/-- `TYPE_KEY` of each metric class. -/
def TYPE_KEY : MetricKind → String
  | .counter => "c"
  | .gauge => "g"
  | .histogram => "h"

/-- `INTERNAL_LABELS` of each metric class (only `Histogram` allows the
reserved `le` label internally). -/
def INTERNAL_LABELS : MetricKind → List String
  | .histogram => [HISTOGRAM_LABEL]
  | _ => []

/-- The mutable state of one metric object.  `counts`, `sum`,
`set_command_issued` and `buckets` are used by the classes that declare them
(`Counter`/`Gauge`/`Histogram`); the unused fields of a class stay at their
initial values. -/
structure MetricState where
  kind : MetricKind
  name : String
  description : String
  allowed_labels : List String
  registered_remotely : Bool
  counts : List (String × Int)
  sum : Int
  set_command_issued : List String
  buckets : List Int
deriving DecidableEq, Inhabited

/-- Errors raised by the embedded operations. -/
inductive OpErr where
  | valueError
  | labelError
  | notRegistered
  | transferError
deriving DecidableEq, Inhabited

/-- `Metric._clean_allowed_labels`: rejects reserved label names and
deduplicates (the Python version collects into a `set`; only membership in
the result is ever observed). -/
def _clean_allowed_labels (labels : List String) : Option (List String) :=
  if labels.any (fun l => RESERVED_LABELS.contains l) then none
  else some labels.eraseDups

/-- `Counter.__init__`. -/
def counterNew (name description : String) (allowed_labels : List String) :
    Option MetricState := do
  let al ← _clean_allowed_labels allowed_labels
  return { kind := .counter, name := name, description := description,
           allowed_labels := al, registered_remotely := false,
           counts := [(NO_LABELS_KEY, 0)], sum := 0,
           set_command_issued := [], buckets := [] }

/-- `Gauge.__init__` (with the default `initial_value=0`). -/
def gaugeNew (name description : String) (allowed_labels : List String) :
    Option MetricState := do
  let al ← _clean_allowed_labels allowed_labels
  return { kind := .gauge, name := name, description := description,
           allowed_labels := al, registered_remotely := false,
           counts := [(NO_LABELS_KEY, 0)], sum := 0,
           set_command_issued := [], buckets := [] }

/-- `Histogram.__init__`. -/
def histogramNew (name description : String) (buckets : List Int)
    (allowed_labels : List String) : Option MetricState := do
  let al ← _clean_allowed_labels allowed_labels
  return { kind := .histogram, name := name, description := description,
           allowed_labels := al, registered_remotely := false,
           counts := [], sum := 0, set_command_issued := [],
           buckets := buckets }

/-- The per-label check performed inside `Metric._check_labels`: the label
must not be reserved (unless internal to the class) and must be allowed
(unless internal). -/
def label_allowed (m : MetricState) (label : String) : Bool :=
  (!(RESERVED_LABELS.contains label) || (INTERNAL_LABELS m.kind).contains label)
    && (m.allowed_labels.contains label || (INTERNAL_LABELS m.kind).contains label)

/-- `Metric._check_labels`: returns the labels unchanged, or fails on a
reserved/disallowed label name. -/
def _check_labels (m : MetricState) (labels : List (String × String)) :
    Option (List (String × String)) :=
  if labels = [] then some []
  else if labels.all (fun p => label_allowed m p.1) then some labels
  else none

/-- `Metric._encode_labels`: the no-labels sentinel for an absent/empty
mapping, otherwise the validated pairs sorted and formatted
`name="value"` joined by commas (the Python code appends a trailing comma
per pair and strips the last character). -/
def _encode_labels (m : MetricState) (labels : List (String × String)) :
    Option String :=
  if labels = [] then some NO_LABELS_KEY
  else
    match _check_labels m labels with
    | none => none
    | some ls =>
      let sorted := sortBy pairLe ls
      let label_string :=
        sorted.foldl (fun acc p => acc ++ p.1 ++ "=\"" ++ p.2 ++ "\",") ""
      some (String.mk label_string.data.dropLast)

/-- `Metric.make_redis_key`: `"{name or self.name}:{extension}:{labels}"`,
with the no-labels sentinel mapped to an empty label segment. -/
def make_redis_key (m : MetricState) (name extension labels : String) : String :=
  let _name := if name = "" then m.name else name
  let labels := if labels = NO_LABELS_KEY then "" else labels
  _name ++ ":" ++ extension ++ ":" ++ labels

/-- `Metric.metric_type_key`. -/
def metric_type_key (m : MetricState) : String :=
  make_redis_key m "" TYPE_EXTENSION_LETTER ""

/-- `Metric.metric_description_key`. -/
def metric_description_key (m : MetricState) : String :=
  make_redis_key m "" DESCRIPTION_EXTENSION_LETTER ""

/-- The key parse in `MetricSet._split_key` (`exposition.py`): it binds
`name = parts[0]`, `ext = parts[1]`, `labels = parts[2]` of
`key.split(":")`; an index past the end raises `IndexError`, modelled as
`none`.  This returns the full `(name, extension, labelString)` triple; the
source function returns only `(ext, labels)` to its caller, which is
`_split_key` below. -/
def splitKey (key : String) : Option (String × String × String) :=
  match splitChar ':' key with
  | name :: ext :: labels :: _ => some (name, ext, labels)
  | _ => none

/-- `MetricSet._split_key` as returned to its caller: `(ext, labels)`. -/
def _split_key (key : String) : Option (String × String) :=
  (splitKey key).map (fun t => (t.2.1, t.2.2))

/-- The state of a `CollectorRegistry` together with the remote Redis hash it
writes to (`store` holds the contents of the hash at `self.namespace`). -/
structure RegState where
  eager : Bool
  metrics : List (String × MetricState)
  buffer : List (String × UpdateAction)
  store : List (String × Value)
deriving DecidableEq, Inhabited

/-- `Metric.reset` of each concrete class: `Counter.reset` restores the
initial count dict, `Gauge.reset` is a deliberate no-op, `Histogram.reset`
clears counts and sum. -/
def MetricState.reset (m : MetricState) : MetricState :=
  match m.kind with
  | .counter => { m with counts := [(NO_LABELS_KEY, 0)] }
  | .gauge => m
  | .histogram => { m with counts := [], sum := 0 }

/-- Redis `HINCRBY` on the namespace hash: increment the integer at `key`,
treating an absent field as `0`.  (A non-integer field would make Redis
error; no embedded scenario stores one at an incremented key.) -/
def hincrby (store : List (String × Value)) (key : String) (v : Int) :
    List (String × Value) :=
  let cur :=
    match store.lookup key with
    | some (Value.int i) => i
    | _ => 0
  updAssoc store key (Value.int (cur + v))

/-- `CollectorRegistry.transfer`.  `execOk` is the oracle for whether the
pipelined `execute()` round trip succeeds; when it raises, the statements
after the `with` block (the per-metric `reset()` loop and the buffer
clearing) do not run, so the state returned with the error is the state
before the call.  On success: all SET actions go through one `hmset` (the
Python guard `if hmset_map:` skips an empty map, which folds to the same
store), each integer increment action goes through `hincrby` in buffer
order, every metric named by a buffered key is reset, and the buffer is
cleared.  (An increment action holding a non-numeric value matches neither
`isinstance` branch in the source and is silently skipped, as here; a
buffered key naming an unregistered metric would raise `KeyError` in the
source and is not modelled, since no claim exercises it.) -/
def transfer (reg : RegState) (execOk : Bool) : Option OpErr × RegState :=
  let actions := reg.buffer.map (fun p => p.2)
  let metric_names := actions.map (fun a => (splitChar ':' a.key).headD "")
  let incr_actions := actions.filter (fun a => !a.set)
  let set_actions := actions.filter (fun a => a.set)
  let hmset_map := set_actions.map (fun a => (a.key, a.value))
  if execOk then
    let store1 := hmset_map.foldl (fun st p => updAssoc st p.1 p.2) reg.store
    let store2 := incr_actions.foldl
      (fun st a =>
        match a.value with
        | .int i => hincrby st a.key i
        | .str _ => st) store1
    let metrics2 := reg.metrics.map
      (fun p => if metric_names.contains p.1 then (p.1, p.2.reset) else p)
    (none, { reg with store := store2, metrics := metrics2, buffer := [] })
  else (some .transferError, reg)

/-- `CollectorRegistry.update_buffer`: coalesce each action into the buffer
by key (last write wins), then flush immediately when the registry is
eager. -/
def update_buffer (reg : RegState) (to_update : List UpdateAction)
    (execOk : Bool) : Option OpErr × RegState :=
  let reg' :=
    { reg with
      buffer := to_update.foldl (fun b item => updAssoc b item.key item) reg.buffer }
  if reg'.eager then transfer reg' execOk else (none, reg')

/-- `CollectorRegistry.register`: index the metric by name (silently
overwriting a previous entry of the same name); the metric's back-pointer to
the registry is modelled by subsequently invoking operations with
`some reg`. -/
def register (reg : RegState) (m : MetricState) : RegState :=
  { reg with metrics := updAssoc reg.metrics m.name m }

/-- The rewriting loop at the top of `Metric.propagate`: an action whose key
is the bare no-labels sentinel is replaced by an action on the plain metric
name (and with the default `set=False`). -/
def rewrite_no_labels (name : String) (update_actions : List UpdateAction) :
    List UpdateAction :=
  update_actions.map
    (fun item =>
      if item.key = NO_LABELS_KEY then
        { key := name, value := item.value, set := false }
      else item)

/-- `Metric.propagate`.  Raises the not-registered error when the metric has
no registry (`reg? = none`).  Otherwise rewrites sentinel keys, appends the
type and description SET actions on the metric's first propagation, and
hands the batch to `update_buffer`.  The registry's index entry for the
metric is the same Python object as `self`, so the updated metric state is
written through to `reg.metrics` and read back after the buffer update (an
eager flush may have reset it). -/
def propagate (m : MetricState) (reg? : Option RegState)
    (update_actions : List UpdateAction) (execOk : Bool) :
    Option OpErr × MetricState × Option RegState :=
  match reg? with
  | none => (some .notRegistered, m, none)
  | some reg =>
    let to_propagate := rewrite_no_labels m.name update_actions
    let step :=
      if !m.registered_remotely then
        ({ m with registered_remotely := true },
         to_propagate ++
           [{ key := metric_type_key m, value := Value.str (TYPE_KEY m.kind),
              set := true },
            { key := metric_description_key m, value := Value.str m.description,
              set := true }])
      else (m, to_propagate)
    let m1 := step.1
    let reg1 := { reg with metrics := updAssoc reg.metrics m.name m1 }
    let out := update_buffer reg1 step.2 execOk
    let mFinal := (out.2.metrics.lookup m1.name).getD m1
    (out.1, mFinal, some out.2)

/-- `Counter.inc`: rejects negative values, raises on a disallowed label,
otherwise stores the new cumulative total for the encoded label key and
propagates one increment action carrying that total. -/
def counter_inc (m : MetricState) (reg? : Option RegState) (value : Int)
    (labels : List (String × String)) (execOk : Bool) :
    Option OpErr × MetricState × Option RegState :=
  if value < 0 then (some .valueError, m, reg?)
  else
    match _encode_labels m labels with
    | none => (some .labelError, m, reg?)
    | some key =>
      let current_value := (m.counts.lookup key).getD 0
      let new_value := current_value + value
      let m1 := { m with counts := updAssoc m.counts key new_value }
      propagate m1 reg?
        [{ key := make_redis_key m1 "" "" key, value := Value.int new_value,
           set := false }] execOk

/-- `Gauge._check_set_command_issued`. -/
def _check_set_command_issued (m : MetricState) (label_combination : String) :
    Bool :=
  m.set_command_issued.contains label_combination

/-- Python `set.add` on the issued-set-commands set (membership is all that
is ever observed). -/
def addIssued (s : List String) (k : String) : List String :=
  if s.contains k then s else s ++ [k]

/-- `Gauge.set`: stores the value for the encoded label key, propagates one
absolute SET action, and only then marks set-mode for the combination (so a
propagation failure leaves set-mode unmarked). -/
def gauge_set (m : MetricState) (reg? : Option RegState) (value : Int)
    (labels : List (String × String)) (execOk : Bool) :
    Option OpErr × MetricState × Option RegState :=
  match _encode_labels m labels with
  | none => (some .labelError, m, reg?)
  | some key =>
    let m1 := { m with counts := updAssoc m.counts key value }
    match propagate m1 reg?
        [{ key := make_redis_key m1 "" "" key, value := Value.int value,
           set := true }] execOk with
    | (some e, m2, r2) => (some e, m2, r2)
    | (none, m2, r2) =>
      let m3 := { m2 with set_command_issued := addIssued m2.set_command_issued key }
      let r3 := r2.map (fun r => { r with metrics := updAssoc r.metrics m3.name m3 })
      (none, m3, r3)

/-- `Gauge.inc`: rejects negative values; in set-mode for the combination it
delegates to `Gauge.set` with the new computed value, otherwise it stores
the new total and propagates an increment action. -/
def gauge_inc (m : MetricState) (reg? : Option RegState) (value : Int)
    (labels : List (String × String)) (execOk : Bool) :
    Option OpErr × MetricState × Option RegState :=
  if value < 0 then (some .valueError, m, reg?)
  else
    match _encode_labels m labels with
    | none => (some .labelError, m, reg?)
    | some key =>
      let current_value := (m.counts.lookup key).getD 0
      let new_value := current_value + value
      if _check_set_command_issued m key then gauge_set m reg? new_value labels execOk
      else
        let m1 := { m with counts := updAssoc m.counts key new_value }
        propagate m1 reg?
          [{ key := make_redis_key m1 "" "" key, value := Value.int new_value,
             set := false }] execOk

/-- `Gauge.dec`: mirror image of `Gauge.inc` with subtraction. -/
def gauge_dec (m : MetricState) (reg? : Option RegState) (value : Int)
    (labels : List (String × String)) (execOk : Bool) :
    Option OpErr × MetricState × Option RegState :=
  if value < 0 then (some .valueError, m, reg?)
  else
    match _encode_labels m labels with
    | none => (some .labelError, m, reg?)
    | some key =>
      let current_value := (m.counts.lookup key).getD 0
      let new_value := current_value - value
      if _check_set_command_issued m key then gauge_set m reg? new_value labels execOk
      else
        let m1 := { m with counts := updAssoc m.counts key new_value }
        propagate m1 reg?
          [{ key := make_redis_key m1 "" "" key, value := Value.int new_value,
             set := false }] execOk

/-- Python `{**a, **b}` on string-keyed dicts: keys of `a` in order (values
overridden by `b` where present), then keys of `b` not in `a`. -/
def dictMerge (a b : List (String × String)) : List (String × String) :=
  a.map (fun p =>
      match b.lookup p.1 with
      | some v => (p.1, v)
      | none => p)
    ++ b.filter (fun q => !(a.any (fun p => p.1 == q.1)))

/-- `Histogram._add_observed_value`: merges the bucket label `le` into the
caller's labels, increments the count for the combined combination, and
propagates an increment action on the bucket (`b`) extension key carrying
the new cumulative count. -/
def _add_observed_value (m : MetricState) (reg? : Option RegState)
    (bucket : String) (labels : List (String × String)) (execOk : Bool) :
    Option OpErr × MetricState × Option RegState :=
  let bucket_label := [(HISTOGRAM_LABEL, bucket)]
  let all_labels := dictMerge bucket_label labels
  match _encode_labels m all_labels with
  | none => (some .labelError, m, reg?)
  | some count_key =>
    let current_value := (m.counts.lookup count_key).getD 0
    let new_value := current_value + 1
    let m1 := { m with counts := updAssoc m.counts count_key new_value }
    propagate m1 reg?
      [{ key := make_redis_key m1 "" "b" count_key, value := Value.int new_value,
         set := false }] execOk

/-- `Histogram._add_to_histogram_sum`: adds the observation to the running
sum and propagates an increment action (`set` defaults to `False` in the
source) on the sum (`s`) extension key carrying the new cumulative sum. -/
def _add_to_histogram_sum (m : MetricState) (reg? : Option RegState)
    (value : Int) (execOk : Bool) :
    Option OpErr × MetricState × Option RegState :=
  let m1 := { m with sum := m.sum + value }
  propagate m1 reg?
    [{ key := make_redis_key m1 "" "s" "", value := Value.int m1.sum,
       set := false }] execOk

/-- The literal count-dict key `'le="+Inf"'` used by
`Histogram._increase_total_count`. -/
def INF_COUNT_KEY : String := "le=\"+Inf\""

/-- `Histogram._increase_total_count`: records one more observation in the
label-less `+Inf` bucket, then propagates an increment action on the count
(`c`) extension key carrying the `+Inf` bucket's new cumulative count (the
bucket entry always exists at that point, so the Python `dict.get` never
yields `None` here; an absent entry is modelled as `0`). -/
def _increase_total_count (m : MetricState) (reg? : Option RegState)
    (execOk : Bool) : Option OpErr × MetricState × Option RegState :=
  match _add_observed_value m reg? INFINITY_FOR_HISTOGRAM [] execOk with
  | (some e, m1, r1) => (some e, m1, r1)
  | (none, m1, r1) =>
    propagate m1 r1
      [{ key := make_redis_key m1 "" "c" "",
         value := Value.int ((m1.counts.lookup INF_COUNT_KEY).getD 0),
         set := false }] execOk

/-- The bucket loop of `Histogram.observe`: each bucket boundary at or above
the observation gets one more count; an exception mid-loop aborts the rest
of the loop with the state as mutated so far. -/
def observeBuckets (m : MetricState) (reg? : Option RegState)
    (buckets : List Int) (value : Int) (labels : List (String × String))
    (execOk : Bool) : Option OpErr × MetricState × Option RegState :=
  match buckets with
  | [] => (none, m, reg?)
  | b :: rest =>
    if value ≤ b then
      match _add_observed_value m reg? (toString b) labels execOk with
      | (some e, m1, r1) => (some e, m1, r1)
      | (none, m1, r1) => observeBuckets m1 r1 rest value labels execOk
    else observeBuckets m reg? rest value labels execOk

/-- `Histogram.observe`: cumulative bucket updates, then the sum update,
then the total-count update. -/
def observe (m : MetricState) (reg? : Option RegState) (value : Int)
    (labels : List (String × String)) (execOk : Bool) :
    Option OpErr × MetricState × Option RegState :=
  match observeBuckets m reg? m.buckets value labels execOk with
  | (some e, m1, r1) => (some e, m1, r1)
  | (none, m1, r1) =>
    match _add_to_histogram_sum m1 r1 value execOk with
    | (some e, m2, r2) => (some e, m2, r2)
    | (none, m2, r2) => _increase_total_count m2 r2 execOk

/-- `RedisKeyValuePair` from `exposition.py` (after `.decode()` of the raw
bytes). -/
structure RedisKeyValuePair where
  key : String
  value : String
deriving DecidableEq, Inhabited

/-- `MetricValue` from `exposition.py`; `type` is `None` for a direct value
record. -/
structure MetricValue where
  type : Option String
  labels : String
  value : String
deriving DecidableEq, Inhabited

/-- `MetricSet` from `exposition.py`; `description` and `type` start as
`None`. -/
structure MetricSet where
  name : String
  description : Option String := none
  type : Option String := none
  values : List MetricValue := []
deriving DecidableEq, Inhabited

/-- `MetricSet.add_item`: dispatch on the key's extension letter.  A key on
which `_split_key` raises (`IndexError`) aborts with `none`; the source has
a dead `if labels is None` guard (the split never yields `None`). -/
def MetricSet.add_item (ms : MetricSet) (kv : RedisKeyValuePair) :
    Option MetricSet :=
  match _split_key kv.key with
  | none => none
  | some (extension, labels) =>
    if extension = "d" then some { ms with description := some kv.value }
    else if extension = "t" then
      if kv.value = "c" then some { ms with type := some "counter" }
      else if kv.value = "g" then some { ms with type := some "gauge" }
      else if kv.value = "h" then some { ms with type := some "histogram" }
      else if kv.value = "s" then some { ms with type := some "summary" }
      else some ms
    else if extension = "b" then
      some { ms with values := ms.values ++ [⟨some "bucket", labels, kv.value⟩] }
    else if extension = "c" then
      some { ms with values := ms.values ++ [⟨some "count", labels, kv.value⟩] }
    else if extension = "s" then
      some { ms with values := ms.values ++ [⟨some "sum", labels, kv.value⟩] }
    else
      some { ms with values := ms.values ++ [⟨none, labels, kv.value⟩] }

/-- How a stored value reads back from `hgetall` after `.decode()`: Redis
stores integers as their decimal text. -/
def decodeValue : Value → String
  | .int i => toString i
  | .str s => s

/-- Python tuple comparison on `(key, value)` pairs, the ordering `attr.s`
generates for `RedisKeyValuePair`. -/
def kvLe (p q : RedisKeyValuePair) : Bool :=
  strLt p.key q.key ||
    (p.key == q.key && (strLt p.value q.value || p.value == q.value))

/-- `itertools.groupby` over an already grouped-by-sort list: maximal runs
of consecutive elements with the same group key. -/
def groupConsecutive {α : Type} (f : α → String) : List α → List (String × List α)
  | [] => []
  | x :: xs =>
    match groupConsecutive f xs with
    | [] => [(f x, [x])]
    | (g, ys) :: rest =>
      if f x = g then (f x, x :: ys) :: rest
      else (f x, [x]) :: (g, ys) :: rest

/-- The per-group loop body of `ExpositionClient._get_data`: fold the
group's items into a fresh `MetricSet`. -/
def buildMetric (name : String) (items : List RedisKeyValuePair) :
    Option MetricSet :=
  items.foldlM (fun ms kv => ms.add_item kv)
    ({ name := name } : MetricSet)

/-- `ExpositionClient._get_data`: read the namespace dump, decode and sort
the pairs, group them by the first colon-delimited key segment, and build a
`MetricSet` per group.  An `IndexError` from a malformed key propagates and
aborts the whole decode (`none`). -/
def _get_data (store : List (String × Value)) : Option (List MetricSet) :=
  let sorted_results :=
    sortBy kvLe (store.map (fun p => RedisKeyValuePair.mk p.1 (decodeValue p.2)))
  let groups :=
    groupConsecutive (fun kv => (splitChar ':' kv.key).headD "") sorted_results
  groups.mapM (fun g => buildMetric g.1 g.2)

/-- Python `f"{x}"` on an optional value: `None` prints as the text
`"None"`. -/
def renderOpt : Option String → String
  | some s => s
  | none => "None"

/-- `ExpositionClient.expose`: render every decoded metric set in the
Prometheus text format (HELP line, TYPE line, one line per value record,
blank separator line). -/
def expose (store : List (String × Value)) : Option String :=
  (_get_data store).map (fun metrics =>
    metrics.foldl (fun out metric =>
      let out := out ++ "# HELP " ++ metric.name ++ " " ++
        renderOpt metric.description ++ "\n"
      let out := out ++ "# TYPE " ++ metric.name ++ " " ++
        renderOpt metric.type ++ "\n"
      let out := metric.values.foldl (fun out v =>
        match v.type with
        | some t =>
          if v.labels = "" then
            out ++ metric.name ++ "_" ++ t ++ " " ++ v.value ++ "\n"
          else
            out ++ metric.name ++ "_" ++ t ++ "\x7b" ++ v.labels ++ "\x7d " ++
              v.value ++ "\n"
        | none =>
          if v.labels = "" then out ++ metric.name ++ " " ++ v.value ++ "\n"
          else
            out ++ metric.name ++ "\x7b" ++ v.labels ++ "\x7d " ++ v.value ++ "\n")
        out
      out ++ "\n") "")

/-! Concrete end-to-end scenario for the counter/flush/expose pipeline. -/

/-- The counter of the end-to-end scenario. -/
def c1_m0 : MetricState :=
  (counterNew "http_requests_total" "Total HTTP requests." ["code", "path"]).getD default

/-- A fresh non-eager registry over an empty remote namespace. -/
def c1_reg0 : RegState := { eager := false, metrics := [], buffer := [], store := [] }

/-- The registry after registering the counter. -/
def c1_reg1 : RegState := register c1_reg0 c1_m0

/-- First increment: `inc(3, {code:"200", path:"/api"})`. -/
def c1_step1 : Option OpErr × MetricState × Option RegState :=
  counter_inc c1_m0 (some c1_reg1) 3 [("code", "200"), ("path", "/api")] true

/-- Second increment with the labels permuted:
`inc(3, {path:"/api", code:"200"})`. -/
def c1_step2 : Option OpErr × MetricState × Option RegState :=
  counter_inc c1_step1.2.1 c1_step1.2.2 3 [("path", "/api"), ("code", "200")] true

/-- The flush of the buffered updates. -/
def c1_flushed : Option OpErr × RegState :=
  transfer (c1_step2.2.2.getD c1_reg1) true

/-- The exposition text rendered from the remote dump after the flush. -/
def c1_text : Option String := expose c1_flushed.2.store

/-- The exposition line the end-to-end claim requires
(`http_requests_total{code="200",path="/api"} 6`). -/
def c1_line : String := "http_requests_total\x7bcode=\"200\",path=\"/api\"\x7d 6"

/-- C1.  End-to-end: for the counter `http_requests_total` with allowed
labels `{code, path}` registered in a registry, `inc(3, {code:"200",
path:"/api"})` followed by `inc(3, {path:"/api", code:"200"})`, a flush, and
a decode/render of the resulting store dump all succeed, and the rendered
text contains the line `http_requests_total{code="200",path="/api"} 6`. -/
theorem c1_end_to_end :
    c1_step1.1 = none ∧ c1_step2.1 = none ∧ c1_flushed.1 = none ∧
      c1_text.map (fun out => (splitChar '\n' out).contains c1_line) = some true := by
  decide

/-- C2.  Flush is all-or-nothing: for every registry state, if the pipelined
`execute()` round trip raises, `transfer` propagates the error and returns
the state exactly as it was — the buffer is untouched, no metric has
`reset()` applied, and the remote store is unchanged — and a retried
`transfer` on that state behaves exactly as a `transfer` on the original
state. -/
theorem transfer_all_or_nothing (reg : RegState) :
    transfer reg false = (some OpErr.transferError, reg) ∧
      transfer (transfer reg false).2 true = transfer reg true :=
  ⟨rfl, rfl⟩

/-! Lemmas about the key codec. -/

theorem splitList_of_not_mem {sep : Char} {l : List Char} (h : sep ∉ l) :
    splitList sep l = [l] := by
  induction l with
  | nil => rfl
  | cons c cs ih =>
    have hc : ¬ c = sep := fun hcs => h (hcs ▸ List.mem_cons_self c cs)
    have hcs : sep ∉ cs := fun hm => h (List.mem_cons_of_mem c hm)
    simp [splitList, hc, ih hcs]

theorem splitList_append {sep : Char} {a : List Char} (b : List Char)
    (h : sep ∉ a) : splitList sep (a ++ sep :: b) = a :: splitList sep b := by
  induction a with
  | nil => simp [splitList]
  | cons c cs ih =>
    have hc : ¬ c = sep := fun hcs => h (hcs ▸ List.mem_cons_self c cs)
    have hcs : sep ∉ cs := fun hm => h (List.mem_cons_of_mem c hm)
    have step : splitList sep (c :: (cs ++ sep :: b)) =
        match splitList sep (cs ++ sep :: b) with
        | [] => [[c]]
        | t :: ts => (c :: t) :: ts := by
      simp [splitList, hc]
    rw [List.cons_append, step, ih hcs]

theorem data_append (s t : String) : (s ++ t).data = s.data ++ t.data := rfl

theorem make_redis_key_data (m : MetricState) (e l : String) :
    (make_redis_key m "" e l).data =
      m.name.data ++ ':' ::
        (e.data ++ ':' :: (if l = NO_LABELS_KEY then "" else l).data) := by
  by_cases hl : l = NO_LABELS_KEY <;>
    simp [make_redis_key, hl, data_append, String.data]

/-- C3.  Key round-trip: for every metric name, extension and label string
that are free of the `':'` separator, splitting the key built by
`make_redis_key` yields back the `(name, extension, labelString)` triple,
with the no-labels sentinel normalised to the empty label string. -/
theorem key_roundtrip (m : MetricState) (e l : String)
    (hn : ':' ∉ m.name.data) (he : ':' ∉ e.data) (hl : ':' ∉ l.data) :
    splitKey (make_redis_key m "" e l) =
      some (m.name, e, if l = NO_LABELS_KEY then "" else l) := by
  have hl' : ':' ∉ (if l = NO_LABELS_KEY then "" else l).data := by
    by_cases h : l = NO_LABELS_KEY
    · simp [h, String.data]
    · simpa [h] using hl
  unfold splitKey splitChar
  rw [make_redis_key_data, splitList_append _ hn, splitList_append _ he,
    splitList_of_not_mem hl']
  rfl

/-- Witness for C3 at concrete inputs, the sentinel case included. -/
theorem key_roundtrip_check :
    (':' ∉ (c1_m0.name).data) ∧ (':' ∉ ("t" : String).data) ∧
      (':' ∉ (NO_LABELS_KEY : String).data) ∧
      splitKey (make_redis_key c1_m0 "" "t" NO_LABELS_KEY) =
        some (c1_m0.name, "t", "") := by
  refine ⟨by decide, by decide, by decide, ?_⟩
  exact key_roundtrip c1_m0 "t" NO_LABELS_KEY (by decide) (by decide) (by decide)

theorem splitList_ne_nil (sep : Char) (l : List Char) : splitList sep l ≠ [] := by
  cases l with
  | nil => simp [splitList]
  | cons c cs =>
    by_cases hc : c = sep
    · simp [splitList, hc]
    · simp only [splitList, hc, if_false]
      cases splitList sep cs with
      | nil => simp
      | cons t ts => simp

theorem splitList_length (sep : Char) (l : List Char) :
    (splitList sep l).length = l.count sep + 1 := by
  induction l with
  | nil => rfl
  | cons c cs ih =>
    by_cases hc : c = sep
    · subst hc
      simp [splitList, ih, List.count_cons]
    · have h2 := splitList_ne_nil sep cs
      simp only [splitList, hc, if_false]
      cases h : splitList sep cs with
      | nil => exact absurd h h2
      | cons t ts =>
        have hlen : ((c :: t) :: ts).length = (t :: ts).length := by simp
        rw [hlen, ← h, ih, List.count_cons]
        simp [Ne.symm hc, hc]

theorem splitChar_length (sep : Char) (s : String) :
    (splitChar sep s).length = s.data.count sep + 1 := by
  rw [splitChar, List.length_map, splitList_length]

theorem splitKey_none_iff (key : String) :
    splitKey key = none ↔ (splitChar ':' key).length < 3 := by
  rcases hsp : splitChar ':' key with _ | ⟨a, _ | ⟨b, _ | ⟨c, t⟩⟩⟩ <;>
    simp [splitKey, hsp]

/-- C7 (amended).  `splitKey` fails exactly when the key holds fewer than
two `':'` separators; every key with at least two separators parses to the
triple formed from its first three `':'`-delimited segments (keys with more
than two separators do NOT fail — the claim's "exactly two" direction is
refuted by `splitKey_extra_separator`). -/
theorem splitKey_failure_boundary (key : String) :
    (splitKey key = none ↔ key.data.count ':' < 2) ∧
      (2 ≤ key.data.count ':' →
        splitKey key =
          some ((splitChar ':' key).headD "",
            ((splitChar ':' key).drop 1).headD "",
            ((splitChar ':' key).drop 2).headD "")) := by
  constructor
  · rw [splitKey_none_iff]
    have := splitChar_length ':' key
    omega
  · intro h
    have hlen : 3 ≤ (splitChar ':' key).length := by
      rw [splitChar_length]; omega
    rcases hsp : splitChar ':' key with _ | ⟨a, _ | ⟨b, _ | ⟨c, t⟩⟩⟩ <;>
      rw [hsp] at hlen
    · simp at hlen
    · simp at hlen
    · simp at hlen
    · simp [splitKey, hsp]

/-- Counterexample to C7 as stated: the key `a:b:c:d` does not contain
exactly two `':'` separators, yet `splitKey` does not fail on it (it returns
the first three segments). -/
theorem splitKey_extra_separator :
    ("a:b:c:d" : String).data.count ':' ≠ 2 ∧
      splitKey "a:b:c:d" = some ("a", "b", "c") := by decide

/-- Witness for C7 (amended) at a well-formed key. -/
theorem splitKey_failure_boundary_check :
    2 ≤ ("a:b:c" : String).data.count ':' ∧ splitKey "a:b:c" = some ("a", "b", "c") := by
  refine ⟨by decide, ?_⟩
  exact ((splitKey_failure_boundary "a:b:c").2 (by decide)).trans (by decide)

/-- C8.  The decoder does not isolate malformed keys: a namespace dump
holding the malformed key `bad` (no separators) makes the whole decode
abort (`IndexError` from `_split_key`), even though the same dump without
the offending key decodes and renders its well-formed entry `m:: ↦ 2` to
the line `m 2`. -/
theorem decode_aborts_on_malformed_key :
    _get_data [("bad", Value.str "1"), ("m::", Value.str "2")] = none ∧
      (expose [("m::", Value.str "2")]).map
        (fun out => (splitChar '\n' out).contains "m 2") = some true := by
  decide

/-- C9.  The not-registered state error is not atomic: for a counter with no
attached registry, `inc` with a non-negative value and valid labels raises
the not-registered error only after the local count for the encoded label
key has been updated to the new total, whereas the validation error for a
negative value is raised before any mutation. -/
theorem counter_inc_unregistered_mutates (m : MetricState) (v : Int)
    (labels : List (String × String)) (key : String) (execOk : Bool)
    (hv : 0 ≤ v) (hk : _encode_labels m labels = some key) :
    counter_inc m none v labels execOk =
      (some OpErr.notRegistered,
       { m with counts := updAssoc m.counts key ((m.counts.lookup key).getD 0 + v) },
       none) ∧
      ∀ w : Int, ∀ labels2 : List (String × String), w < 0 →
        counter_inc m none w labels2 execOk = (some OpErr.valueError, m, none) := by
  constructor
  · simp [counter_inc, if_neg (not_lt.mpr hv), hk, propagate]
  · intro w labels2 hw
    simp [counter_inc, if_pos hw]

/-- Witness for C9 at a concrete unregistered counter. -/
theorem counter_inc_unregistered_check :
    (0 : Int) ≤ 1 ∧ _encode_labels c1_m0 [("code", "1")] = some "code=\"1\"" ∧
      counter_inc c1_m0 none 1 [("code", "1")] true =
        (some OpErr.notRegistered,
         { c1_m0 with
           counts := updAssoc c1_m0.counts "code=\"1\""
             ((c1_m0.counts.lookup "code=\"1\"").getD 0 + 1) },
         none) := by
  refine ⟨by decide, by decide, ?_⟩
  exact (counter_inc_unregistered_mutates c1_m0 1 [("code", "1")] "code=\"1\"" true
    (by decide) (by decide)).1

/-! Lemmas about association-list update. -/

theorem lookup_cons {α : Type} (k k1 : String) (v1 : α) (rest : List (String × α)) :
    List.lookup k ((k1, v1) :: rest) = if k = k1 then some v1 else List.lookup k rest := by
  by_cases h : k = k1
  · simp [List.lookup, h]
  · have hb : (k == k1) = false := by simp [h]
    simp [List.lookup, hb, h]

theorem lookup_updAssoc_self {α : Type} (l : List (String × α)) (k : String) (v : α) :
    (updAssoc l k v).lookup k = some v := by
  induction l with
  | nil => simp [updAssoc, lookup_cons]
  | cons p rest ih =>
    obtain ⟨k1, v1⟩ := p
    by_cases h : k1 = k
    · simp [updAssoc, h, lookup_cons]
    · simp [updAssoc, h, lookup_cons, Ne.symm h, ih]

theorem lookup_updAssoc_ne {α : Type} (l : List (String × α)) (k k' : String)
    (v : α) (h : k' ≠ k) : (updAssoc l k v).lookup k' = l.lookup k' := by
  induction l with
  | nil => simp [updAssoc, lookup_cons, h]
  | cons p rest ih =>
    obtain ⟨k1, v1⟩ := p
    by_cases h1 : k1 = k
    · subst h1
      simp [updAssoc, lookup_cons, h]
    · simp [updAssoc, h1, lookup_cons, ih]

theorem mem_updAssoc {α : Type} {p : String × α} {l : List (String × α)}
    {k : String} {v : α} (h : p ∈ updAssoc l k v) : p = (k, v) ∨ p ∈ l := by
  induction l with
  | nil => simpa [updAssoc] using h
  | cons q rest ih =>
    by_cases hq : q.1 = k
    · rw [show q = (q.1, q.2) from rfl, updAssoc, if_pos hq] at h
      rcases List.mem_cons.mp h with h | h
      · exact Or.inl h
      · exact Or.inr (List.mem_cons_of_mem _ h)
    · rw [show q = (q.1, q.2) from rfl, updAssoc, if_neg hq] at h
      rcases List.mem_cons.mp h with h | h
      · exact Or.inr (h ▸ List.mem_cons_self _ _)
      · rcases ih h with h | h
        · exact Or.inl h
        · exact Or.inr (List.mem_cons_of_mem _ h)

/-! Normal forms of `propagate` under a non-eager registry. -/

theorem propagate_registered (m : MetricState) (r : RegState)
    (actions : List UpdateAction) (ek : Bool) (he : r.eager = false)
    (hm : m.registered_remotely = true) :
    propagate m (some r) actions ek =
      (none, m,
       some { r with
              metrics := updAssoc r.metrics m.name m,
              buffer := (rewrite_no_labels m.name actions).foldl
                (fun b item => updAssoc b item.key item) r.buffer }) := by
  simp [propagate, update_buffer, hm, he, lookup_updAssoc_self]

theorem propagate_unregistered (m : MetricState) (r : RegState)
    (actions : List UpdateAction) (ek : Bool) (he : r.eager = false)
    (hm : m.registered_remotely = false) :
    propagate m (some r) actions ek =
      (none, { m with registered_remotely := true },
       some { r with
              metrics := updAssoc r.metrics m.name { m with registered_remotely := true },
              buffer := ((rewrite_no_labels m.name actions) ++
                ([{ key := metric_type_key m, value := Value.str (TYPE_KEY m.kind),
                    set := true },
                  { key := metric_description_key m, value := Value.str m.description,
                    set := true }] : List UpdateAction)).foldl
                (fun b item => updAssoc b item.key item) r.buffer }) := by
  simp [propagate, update_buffer, hm, he, lookup_updAssoc_self]

/-! Shape facts about `make_redis_key` output. -/

theorem string_data_inj {s t : String} (h : s.data = t.data) : s = t := by
  cases s
  cases t
  exact congrArg String.mk h

theorem make_redis_key_full_data (m : MetricState) (n e l : String) :
    (make_redis_key m n e l).data =
      (if n = "" then m.name else n).data ++
        ':' :: (e.data ++ ':' :: (if l = NO_LABELS_KEY then "" else l).data) := by
  by_cases hn : n = "" <;> by_cases hl : l = NO_LABELS_KEY <;>
    simp [make_redis_key, hn, hl, data_append, String.data]

theorem colon_count_make_redis_key (m : MetricState) (n e l : String) :
    2 ≤ ((make_redis_key m n e l).data.count ':') := by
  rw [make_redis_key_full_data]
  simp [List.count_append, List.count_cons]
  omega

theorem make_redis_key_ne_no_labels (m : MetricState) (n e l : String) :
    make_redis_key m n e l ≠ NO_LABELS_KEY := by
  intro h
  have hc := colon_count_make_redis_key m n e l
  rw [h] at hc
  simp [NO_LABELS_KEY, String.data] at hc

theorem make_redis_key_ext_ne (m : MetricState) (e1 e2 l1 l2 : String)
    (h1 : ':' ∉ e1.data) (h2 : ':' ∉ e2.data) (hne : e1 ≠ e2) :
    make_redis_key m "" e1 l1 ≠ make_redis_key m "" e2 l2 := by
  intro h
  have hd := congrArg String.data h
  rw [make_redis_key_data, make_redis_key_data] at hd
  have hd2 := List.append_cancel_left hd
  have hd3 := (List.cons.injEq _ _ _ _).mp hd2 |>.2
  have hs := congrArg (splitList ':') hd3
  rw [splitList_append _ h1, splitList_append _ h2] at hs
  exact hne (string_data_inj ((List.cons.injEq _ _ _ _).mp hs).1)

theorem make_redis_key_congr {m m' : MetricState} (h : m'.name = m.name)
    (n e l : String) : make_redis_key m' n e l = make_redis_key m n e l := by
  simp [make_redis_key, h]

theorem _encode_labels_congr {m m' : MetricState}
    (hk : m'.kind = m.kind) (ha : m'.allowed_labels = m.allowed_labels)
    (labels : List (String × String)) :
    _encode_labels m' labels = _encode_labels m labels := by
  obtain ⟨k1, n1, d1, a1, r1, c1, s1, i1, b1⟩ := m
  obtain ⟨k2, n2, d2, a2, r2, c2, s2, i2, b2⟩ := m'
  simp only at hk ha
  subst hk
  subst ha
  rfl

theorem rewrite_no_labels_id (name : String) (actions : List UpdateAction)
    (h : ∀ a ∈ actions, a.key ≠ NO_LABELS_KEY) :
    rewrite_no_labels name actions = actions := by
  induction actions with
  | nil => rfl
  | cons a rest ih =>
    have h1 : ¬ a.key = NO_LABELS_KEY := h a (List.mem_cons_self _ _)
    have h2 : ∀ x ∈ rest, x.key ≠ NO_LABELS_KEY :=
      fun x hx => h x (List.mem_cons_of_mem _ hx)
    have htail := ih h2
    simp only [rewrite_no_labels, List.map_cons, if_neg h1] at htail ⊢
    rw [htail]

/-! The `Counter.inc` step and call-sequence lemmas. -/

theorem counter_inc_step (m : MetricState) (r : RegState) (v : Int)
    (labels : List (String × String)) (key : String) (ek : Bool)
    (he : r.eager = false) (hv : 0 ≤ v) (hk : _encode_labels m labels = some key) :
    ∃ m' r', counter_inc m (some r) v labels ek = (none, m', some r') ∧
      m'.name = m.name ∧ m'.kind = m.kind ∧
      m'.allowed_labels = m.allowed_labels ∧
      m'.set_command_issued = m.set_command_issued ∧
      m'.counts = updAssoc m.counts key ((m.counts.lookup key).getD 0 + v) ∧
      r'.eager = false ∧
      r'.buffer.lookup (make_redis_key m "" "" key) =
        some { key := make_redis_key m "" "" key,
               value := Value.int ((m.counts.lookup key).getD 0 + v),
               set := false } := by
  have hstep : counter_inc m (some r) v labels ek =
      propagate { m with
          counts := updAssoc m.counts key ((m.counts.lookup key).getD 0 + v) }
        (some r)
        [{ key := make_redis_key m "" "" key,
           value := Value.int ((m.counts.lookup key).getD 0 + v),
           set := false }] ek := by
    rw [counter_inc, if_neg (not_lt.mpr hv), hk]
    rfl
  have hrw : rewrite_no_labels m.name
      [({ key := make_redis_key m "" "" key,
          value := Value.int ((m.counts.lookup key).getD 0 + v),
          set := false } : UpdateAction)] =
      [{ key := make_redis_key m "" "" key,
         value := Value.int ((m.counts.lookup key).getD 0 + v),
         set := false }] := by
    refine rewrite_no_labels_id _ _ ?_
    intro a ha
    rcases List.mem_singleton.mp ha with rfl
    exact make_redis_key_ne_no_labels m "" "" key
  by_cases hreg : m.registered_remotely
  · rw [hstep, propagate_registered _ r _ ek he (by simpa using hreg)]
    refine ⟨_, _, rfl, rfl, rfl, rfl, rfl, rfl, he, ?_⟩
    simp only []
    rw [show ({ m with
        counts := updAssoc m.counts key ((m.counts.lookup key).getD 0 + v) } :
          MetricState).name = m.name from rfl, hrw]
    simp only [List.foldl_cons, List.foldl_nil]
    exact lookup_updAssoc_self _ _ _
  · rw [hstep, propagate_unregistered _ r _ ek he (by simpa using hreg)]
    refine ⟨_, _, rfl, rfl, rfl, rfl, rfl, rfl, he, ?_⟩
    simp only []
    rw [show ({ m with
        counts := updAssoc m.counts key ((m.counts.lookup key).getD 0 + v) } :
          MetricState).name = m.name from rfl, hrw]
    simp only [List.cons_append, List.nil_append, List.foldl_cons, List.foldl_nil]
    have htne : make_redis_key m "" "" key ≠ metric_type_key m := by
      unfold metric_type_key
      exact make_redis_key_ext_ne m "" TYPE_EXTENSION_LETTER key ""
        (by decide) (by decide) (by decide)
    have hdne : make_redis_key m "" "" key ≠ metric_description_key m := by
      unfold metric_description_key
      exact make_redis_key_ext_ne m "" DESCRIPTION_EXTENSION_LETTER key ""
        (by decide) (by decide) (by decide)
    rw [show metric_type_key ({ m with
          counts := updAssoc m.counts key ((m.counts.lookup key).getD 0 + v) } :
            MetricState) = metric_type_key m from rfl,
        show metric_description_key ({ m with
          counts := updAssoc m.counts key ((m.counts.lookup key).getD 0 + v) } :
            MetricState) = metric_description_key m from rfl]
    rw [lookup_updAssoc_ne _ _ _ _ hdne, lookup_updAssoc_ne _ _ _ _ htne]
    exact lookup_updAssoc_self _ _ _

/-- One `inc` call per list element, on a fixed label combination; an
exception aborts the rest of the sequence with the state at the raise
point. -/
def counter_inc_seq (vs : List Int) (m : MetricState) (reg? : Option RegState)
    (labels : List (String × String)) (execOk : Bool) :
    Option OpErr × MetricState × Option RegState :=
  match vs with
  | [] => (none, m, reg?)
  | v :: rest =>
    match counter_inc m reg? v labels execOk with
    | (some e, m1, r1) => (some e, m1, r1)
    | (none, m1, r1) => counter_inc_seq rest m1 r1 labels execOk

/-- C4.  For every non-empty sequence of `Counter.inc` calls on one label
combination against a non-eager registry, the single coalesced update
buffered for that combination's value key carries `set = false` (an
increment intent, not an absolute set) and the new cumulative local total —
the starting count plus the sum of all increments — not the per-call
increment amount.  Starting from a freshly reset counter the starting count
is `0`, so the buffered value is exactly the net change since the prior
flush, however many calls contributed. -/
theorem counter_inc_seq_buffers_cumulative (vs : List Int) (m : MetricState)
    (r : RegState) (labels : List (String × String)) (key : String) (ek : Bool)
    (he : r.eager = false) (hv : ∀ v ∈ vs, 0 ≤ v)
    (hk : _encode_labels m labels = some key) (hne : vs ≠ []) :
    ∃ m' r', counter_inc_seq vs m (some r) labels ek = (none, m', some r') ∧
      (m'.counts.lookup key).getD 0 = (m.counts.lookup key).getD 0 + vs.sum ∧
      r'.buffer.lookup (make_redis_key m "" "" key) =
        some { key := make_redis_key m "" "" key,
               value := Value.int ((m.counts.lookup key).getD 0 + vs.sum),
               set := false } := by
  induction vs generalizing m r with
  | nil => exact absurd rfl hne
  | cons v rest ih =>
    obtain ⟨m1, r1, heq, hname, hkind, hal, hsci, hcounts, heag, hbuf⟩ :=
      counter_inc_step m r v labels key ek he (hv v (List.mem_cons_self _ _)) hk
    have hc1 : (m1.counts.lookup key).getD 0 = (m.counts.lookup key).getD 0 + v := by
      rw [hcounts, lookup_updAssoc_self]
      rfl
    by_cases hrest : rest = []
    · subst hrest
      refine ⟨m1, r1, ?_, ?_, ?_⟩
      · simp [counter_inc_seq, heq]
      · simpa using hc1
      · simpa using hbuf
    · have hk1 : _encode_labels m1 labels = some key := by
        rw [_encode_labels_congr hkind hal]
        exact hk
      obtain ⟨m2, r2, heq2, hc2, hb2⟩ :=
        ih m1 r1 heag (fun x hx => hv x (List.mem_cons_of_mem _ hx)) hk1 hrest
      refine ⟨m2, r2, ?_, ?_, ?_⟩
      · simp [counter_inc_seq, heq, heq2]
      · rw [hc2, hc1, List.sum_cons]
        omega
      · rw [make_redis_key_congr hname] at hb2
        rw [hb2, hc1, List.sum_cons, add_assoc]

/-- Witness for C4: two increments of 2 and 3 coalesce to one increment
intent carrying the cumulative total 5. -/
theorem counter_inc_seq_check :
    c1_reg1.eager = false ∧
      _encode_labels c1_m0 [("code", "200"), ("path", "/api")] =
        some "code=\"200\",path=\"/api\"" ∧
      (∃ m' r',
        counter_inc_seq [2, 3] c1_m0 (some c1_reg1)
            [("code", "200"), ("path", "/api")] true = (none, m', some r') ∧
          (m'.counts.lookup "code=\"200\",path=\"/api\"").getD 0 =
            (c1_m0.counts.lookup "code=\"200\",path=\"/api\"").getD 0 +
              ([2, 3] : List Int).sum ∧
          r'.buffer.lookup
              (make_redis_key c1_m0 "" "" "code=\"200\",path=\"/api\"") =
            some { key := make_redis_key c1_m0 "" "" "code=\"200\",path=\"/api\"",
                   value := Value.int
                     ((c1_m0.counts.lookup "code=\"200\",path=\"/api\"").getD 0 +
                       ([2, 3] : List Int).sum),
                   set := false }) := by
  refine ⟨rfl, by decide, ?_⟩
  exact counter_inc_seq_buffers_cumulative [2, 3] c1_m0 c1_reg1
    [("code", "200"), ("path", "/api")] "code=\"200\",path=\"/api\"" true rfl
    (by decide) (by decide) (by decide)

/-! Gauge set-mode lemmas. -/

theorem contains_addIssued_self (s : List String) (k : String) :
    (addIssued s k).contains k = true := by
  by_cases h : s.contains k = true
  · rw [addIssued, if_pos h]
    exact h
  · rw [addIssued, if_neg h]
    simp

theorem gauge_set_step (m : MetricState) (r : RegState) (v : Int)
    (labels : List (String × String)) (key : String) (ek : Bool)
    (he : r.eager = false) (hk : _encode_labels m labels = some key) :
    ∃ m' r', gauge_set m (some r) v labels ek = (none, m', some r') ∧
      m'.name = m.name ∧ m'.kind = m.kind ∧ m'.allowed_labels = m.allowed_labels ∧
      m'.counts = updAssoc m.counts key v ∧
      m'.set_command_issued = addIssued m.set_command_issued key ∧
      r'.eager = false ∧
      r'.buffer.lookup (make_redis_key m "" "" key) =
        some { key := make_redis_key m "" "" key, value := Value.int v,
               set := true } := by
  have hrw : rewrite_no_labels m.name
      [({ key := make_redis_key m "" "" key, value := Value.int v,
          set := true } : UpdateAction)] =
      [{ key := make_redis_key m "" "" key, value := Value.int v, set := true }] := by
    refine rewrite_no_labels_id _ _ ?_
    intro a ha
    rcases List.mem_singleton.mp ha with rfl
    exact make_redis_key_ne_no_labels m "" "" key
  by_cases hreg : m.registered_remotely
  · have hp := propagate_registered ({ m with counts := updAssoc m.counts key v })
      r [{ key := make_redis_key ({ m with counts := updAssoc m.counts key v } :
              MetricState) "" "" key,
           value := Value.int v, set := true }] ek he (by simpa using hreg)
    simp only [gauge_set, hk]
    rw [hp]
    refine ⟨_, _, rfl, rfl, rfl, rfl, rfl, rfl, he, ?_⟩
    simp only []
    rw [show make_redis_key ({ m with counts := updAssoc m.counts key v } :
          MetricState) "" "" key = make_redis_key m "" "" key from rfl,
        show ({ m with counts := updAssoc m.counts key v } :
          MetricState).name = m.name from rfl, hrw]
    simp only [List.foldl_cons, List.foldl_nil]
    exact lookup_updAssoc_self _ _ _
  · have hp := propagate_unregistered ({ m with counts := updAssoc m.counts key v })
      r [{ key := make_redis_key ({ m with counts := updAssoc m.counts key v } :
              MetricState) "" "" key,
           value := Value.int v, set := true }] ek he (by simpa using hreg)
    simp only [gauge_set, hk]
    rw [hp]
    refine ⟨_, _, rfl, rfl, rfl, rfl, rfl, rfl, he, ?_⟩
    simp only []
    rw [show make_redis_key ({ m with counts := updAssoc m.counts key v } :
          MetricState) "" "" key = make_redis_key m "" "" key from rfl,
        show ({ m with counts := updAssoc m.counts key v } :
          MetricState).name = m.name from rfl, hrw]
    simp only [List.cons_append, List.nil_append, List.foldl_cons, List.foldl_nil]
    have htne : make_redis_key m "" "" key ≠ metric_type_key m := by
      unfold metric_type_key
      exact make_redis_key_ext_ne m "" TYPE_EXTENSION_LETTER key ""
        (by decide) (by decide) (by decide)
    have hdne : make_redis_key m "" "" key ≠ metric_description_key m := by
      unfold metric_description_key
      exact make_redis_key_ext_ne m "" DESCRIPTION_EXTENSION_LETTER key ""
        (by decide) (by decide) (by decide)
    rw [show metric_type_key ({ m with counts := updAssoc m.counts key v } :
          MetricState) = metric_type_key m from rfl,
        show metric_description_key ({ m with counts := updAssoc m.counts key v } :
          MetricState) = metric_description_key m from rfl]
    rw [lookup_updAssoc_ne _ _ _ _ hdne, lookup_updAssoc_ne _ _ _ _ htne]
    exact lookup_updAssoc_self _ _ _

theorem gauge_inc_set_mode (m : MetricState) (reg? : Option RegState) (w : Int)
    (labels : List (String × String)) (key : String) (ek : Bool)
    (hw : 0 ≤ w) (hk : _encode_labels m labels = some key)
    (hs : _check_set_command_issued m key = true) :
    gauge_inc m reg? w labels ek =
      gauge_set m reg? ((m.counts.lookup key).getD 0 + w) labels ek := by
  simp only [gauge_inc, if_neg (not_lt.mpr hw), hk, hs, if_true]

theorem gauge_dec_set_mode (m : MetricState) (reg? : Option RegState) (w : Int)
    (labels : List (String × String)) (key : String) (ek : Bool)
    (hw : 0 ≤ w) (hk : _encode_labels m labels = some key)
    (hs : _check_set_command_issued m key = true) :
    gauge_dec m reg? w labels ek =
      gauge_set m reg? ((m.counts.lookup key).getD 0 - w) labels ek := by
  simp only [gauge_dec, if_neg (not_lt.mpr hw), hk, hs, if_true]

theorem gauge_inc_eq_counter_inc (m : MetricState) (reg? : Option RegState)
    (w : Int) (labels : List (String × String)) (key : String) (ek : Bool)
    (hw : 0 ≤ w) (hk : _encode_labels m labels = some key)
    (hs : _check_set_command_issued m key = false) :
    gauge_inc m reg? w labels ek = counter_inc m reg? w labels ek := by
  simp only [gauge_inc, counter_inc, if_neg (not_lt.mpr hw), hk, hs]
  simp

/-- C5.  Gauge set-mode is permanent and per-label-combination: `set(v, L)`
emits an absolute-set intent and marks set-mode for `L`'s encoded key; once
set-mode holds for that key, `inc`/`dec` emit absolute-set intents carrying
the new computed value (never increment intents) and set-mode stays on;
while a combination for which `set` was never issued still emits increment
intents and stays out of set-mode. -/
theorem gauge_set_mode_permanent (m : MetricState) (r : RegState) (v w : Int)
    (labels : List (String × String)) (key : String) (ek : Bool)
    (he : r.eager = false) (hw : 0 ≤ w)
    (hk : _encode_labels m labels = some key) :
    (∃ m' r', gauge_set m (some r) v labels ek = (none, m', some r') ∧
        _check_set_command_issued m' key = true ∧
        r'.buffer.lookup (make_redis_key m "" "" key) =
          some { key := make_redis_key m "" "" key, value := Value.int v,
                 set := true }) ∧
      (_check_set_command_issued m key = true →
        ∃ m' r', gauge_inc m (some r) w labels ek = (none, m', some r') ∧
          _check_set_command_issued m' key = true ∧
          r'.buffer.lookup (make_redis_key m "" "" key) =
            some { key := make_redis_key m "" "" key,
                   value := Value.int ((m.counts.lookup key).getD 0 + w),
                   set := true }) ∧
      (_check_set_command_issued m key = true →
        ∃ m' r', gauge_dec m (some r) w labels ek = (none, m', some r') ∧
          _check_set_command_issued m' key = true ∧
          r'.buffer.lookup (make_redis_key m "" "" key) =
            some { key := make_redis_key m "" "" key,
                   value := Value.int ((m.counts.lookup key).getD 0 - w),
                   set := true }) ∧
      (_check_set_command_issued m key = false →
        ∃ m' r', gauge_inc m (some r) w labels ek = (none, m', some r') ∧
          _check_set_command_issued m' key = false ∧
          r'.buffer.lookup (make_redis_key m "" "" key) =
            some { key := make_redis_key m "" "" key,
                   value := Value.int ((m.counts.lookup key).getD 0 + w),
                   set := false }) := by
  refine ⟨?_, ?_, ?_, ?_⟩
  · obtain ⟨m', r', heq, hname, hkind, hal, hcounts, hsci, heag, hbuf⟩ :=
      gauge_set_step m r v labels key ek he hk
    refine ⟨m', r', heq, ?_, hbuf⟩
    rw [_check_set_command_issued, hsci]
    exact contains_addIssued_self _ _
  · intro hs
    rw [gauge_inc_set_mode m (some r) w labels key ek hw hk hs]
    obtain ⟨m', r', heq, hname, hkind, hal, hcounts, hsci, heag, hbuf⟩ :=
      gauge_set_step m r ((m.counts.lookup key).getD 0 + w) labels key ek he hk
    refine ⟨m', r', heq, ?_, hbuf⟩
    rw [_check_set_command_issued, hsci]
    exact contains_addIssued_self _ _
  · intro hs
    rw [gauge_dec_set_mode m (some r) w labels key ek hw hk hs]
    obtain ⟨m', r', heq, hname, hkind, hal, hcounts, hsci, heag, hbuf⟩ :=
      gauge_set_step m r ((m.counts.lookup key).getD 0 - w) labels key ek he hk
    refine ⟨m', r', heq, ?_, hbuf⟩
    rw [_check_set_command_issued, hsci]
    exact contains_addIssued_self _ _
  · intro hs
    rw [gauge_inc_eq_counter_inc m (some r) w labels key ek hw hk hs]
    obtain ⟨m', r', heq, hname, hkind, hal, hsci, hcounts, heag, hbuf⟩ :=
      counter_inc_step m r w labels key ek he hw hk
    refine ⟨m', r', heq, ?_, hbuf⟩
    rw [_check_set_command_issued, hsci]
    exact hs

/-- A demo gauge for the C5 witness. -/
def g_demo : MetricState := (gaugeNew "g" "A demo gauge." ["code"]).getD default

/-- Witness for C5 on the demo gauge's no-labels combination. -/
theorem gauge_set_mode_permanent_check :
    c1_reg0.eager = false ∧ (0 : Int) ≤ 1 ∧
      _encode_labels g_demo [] = some NO_LABELS_KEY ∧
      (∃ m' r', gauge_set g_demo (some c1_reg0) 5 [] true = (none, m', some r') ∧
        _check_set_command_issued m' NO_LABELS_KEY = true ∧
        r'.buffer.lookup (make_redis_key g_demo "" "" NO_LABELS_KEY) =
          some { key := make_redis_key g_demo "" "" NO_LABELS_KEY,
                 value := Value.int 5, set := true }) := by
  refine ⟨rfl, by decide, by decide, ?_⟩
  exact (gauge_set_mode_permanent g_demo c1_reg0 5 1 [] NO_LABELS_KEY true rfl
    (by decide) (by decide)).1

/-! Histogram lemmas. -/

theorem lookup_foldl_updAssoc_ne (acts : List UpdateAction)
    (b : List (String × UpdateAction)) (k : String)
    (h : ∀ a ∈ acts, a.key ≠ k) :
    (acts.foldl (fun bb item => updAssoc bb item.key item) b).lookup k =
      b.lookup k := by
  induction acts generalizing b with
  | nil => rfl
  | cons a rest ih =>
    rw [List.foldl_cons, ih _ (fun x hx => h x (List.mem_cons_of_mem _ hx)),
      lookup_updAssoc_ne _ _ _ _ (Ne.symm (h a (List.mem_cons_self _ _)))]

theorem propagate_shape (m : MetricState) (r : RegState)
    (actions : List UpdateAction) (ek : Bool) (he : r.eager = false)
    (hnl : ∀ a ∈ actions, a.key ≠ NO_LABELS_KEY) :
    ∃ m' r', propagate m (some r) actions ek = (none, m', some r') ∧
      m'.name = m.name ∧ m'.kind = m.kind ∧
      m'.allowed_labels = m.allowed_labels ∧ m'.sum = m.sum ∧
      m'.counts = m.counts ∧ m'.set_command_issued = m.set_command_issued ∧
      r'.eager = false ∧
      (r'.buffer = actions.foldl (fun b item => updAssoc b item.key item) r.buffer ∨
        r'.buffer = (actions ++
          ([{ key := metric_type_key m, value := Value.str (TYPE_KEY m.kind),
              set := true },
            { key := metric_description_key m, value := Value.str m.description,
              set := true }] : List UpdateAction)).foldl
          (fun b item => updAssoc b item.key item) r.buffer) := by
  by_cases hreg : m.registered_remotely
  · rw [propagate_registered m r actions ek he (by simpa using hreg),
      rewrite_no_labels_id _ _ hnl]
    exact ⟨_, _, rfl, rfl, rfl, rfl, rfl, rfl, rfl, he, Or.inl rfl⟩
  · rw [propagate_unregistered m r actions ek he (by simpa using hreg),
      rewrite_no_labels_id _ _ hnl]
    exact ⟨_, _, rfl, rfl, rfl, rfl, rfl, rfl, rfl, he, Or.inr rfl⟩

theorem all_merged_labels_allowed (m : MetricState) (bucket : String)
    (labels : List (String × String)) (hkind : m.kind = MetricKind.histogram)
    (hl : labels.all (fun p => label_allowed m p.1) = true) :
    (dictMerge [(HISTOGRAM_LABEL, bucket)] labels).all
      (fun p => label_allowed m p.1) = true := by
  rw [List.all_eq_true] at hl ⊢
  intro p hp
  rw [dictMerge] at hp
  rcases List.mem_append.mp hp with hp | hp
  · obtain ⟨q, hq, rfl⟩ := List.mem_map.mp hp
    rcases List.mem_singleton.mp hq with rfl
    have hfst : (match labels.lookup HISTOGRAM_LABEL with
        | some v => (HISTOGRAM_LABEL, v)
        | none => (HISTOGRAM_LABEL, bucket)).1 = HISTOGRAM_LABEL := by
      cases labels.lookup HISTOGRAM_LABEL with
      | none => rfl
      | some v => rfl
    simp only [hfst]
    rw [label_allowed, hkind]
    simp [RESERVED_LABELS, INTERNAL_LABELS, HISTOGRAM_LABEL, NO_LABELS_KEY,
      SUMMARY_LABEL]
  · exact hl p (List.mem_of_mem_filter hp)

theorem _encode_merged_labels_ok (m : MetricState) (bucket : String)
    (labels : List (String × String)) (hkind : m.kind = MetricKind.histogram)
    (hl : labels.all (fun p => label_allowed m p.1) = true) :
    ∃ ck, _encode_labels m (dictMerge [(HISTOGRAM_LABEL, bucket)] labels) =
      some ck := by
  have hne : dictMerge [(HISTOGRAM_LABEL, bucket)] labels ≠ [] := by
    rw [dictMerge]
    simp
  rw [_encode_labels, if_neg hne, _check_labels, if_neg hne,
    if_pos (all_merged_labels_allowed m bucket labels hkind hl)]
  exact ⟨_, rfl⟩

theorem label_allowed_congr {m m' : MetricState} (hk : m'.kind = m.kind)
    (ha : m'.allowed_labels = m.allowed_labels) (label : String) :
    label_allowed m' label = label_allowed m label := by
  rw [label_allowed, label_allowed, hk, ha]

theorem _add_observed_value_ok (m : MetricState) (r : RegState) (bucket : String)
    (labels : List (String × String)) (ek : Bool)
    (he : r.eager = false) (hkind : m.kind = MetricKind.histogram)
    (hl : labels.all (fun p => label_allowed m p.1) = true) :
    ∃ m' r', _add_observed_value m (some r) bucket labels ek = (none, m', some r') ∧
      m'.name = m.name ∧ m'.kind = m.kind ∧ m'.allowed_labels = m.allowed_labels ∧
      m'.sum = m.sum ∧ r'.eager = false ∧
      ∀ k : String, (∀ l, make_redis_key m "" "b" l ≠ k) →
        metric_type_key m ≠ k → metric_description_key m ≠ k →
        r'.buffer.lookup k = r.buffer.lookup k := by
  obtain ⟨ck, hck⟩ := _encode_merged_labels_ok m bucket labels hkind hl
  obtain ⟨m', r', heq, hname, hkind', hal, hsum, hcounts, hsci, heag, hbuf⟩ :=
    propagate_shape
      ({ m with counts := updAssoc m.counts ck ((m.counts.lookup ck).getD 0 + 1) })
      r
      [{ key := make_redis_key ({ m with
            counts := updAssoc m.counts ck ((m.counts.lookup ck).getD 0 + 1) } :
              MetricState) "" "b" ck,
         value := Value.int ((m.counts.lookup ck).getD 0 + 1), set := false }]
      ek he
      (by
        intro a ha
        rcases List.mem_singleton.mp ha with rfl
        exact make_redis_key_ne_no_labels _ "" "b" ck)
  refine ⟨m', r', ?_, hname, hkind', hal, hsum, heag, ?_⟩
  · rw [_add_observed_value, hck]
    exact heq
  · intro k hbk htk hdk
    rcases hbuf with hbuf | hbuf
    · rw [hbuf]
      refine lookup_foldl_updAssoc_ne _ _ _ ?_
      intro a ha
      rcases List.mem_singleton.mp ha with rfl
      exact hbk ck
    · rw [hbuf]
      refine lookup_foldl_updAssoc_ne _ _ _ ?_
      intro a ha
      rcases List.mem_append.mp ha with ha | ha
      · rcases List.mem_singleton.mp ha with rfl
        exact hbk ck
      · rcases List.mem_cons.mp ha with rfl | ha
        · exact htk
        · rcases List.mem_cons.mp ha with rfl | ha
          · exact hdk
          · exact absurd ha (List.not_mem_nil _)

theorem observeBuckets_cons (m : MetricState) (reg? : Option RegState)
    (b : Int) (rest : List Int) (v : Int) (labels : List (String × String))
    (ek : Bool) :
    observeBuckets m reg? (b :: rest) v labels ek =
      if v ≤ b then
        match _add_observed_value m reg? (toString b) labels ek with
        | (some e, m1, r1) => (some e, m1, r1)
        | (none, m1, r1) => observeBuckets m1 r1 rest v labels ek
      else observeBuckets m reg? rest v labels ek := rfl

theorem observeBuckets_ok (bs : List Int) (m : MetricState) (r : RegState)
    (v : Int) (labels : List (String × String)) (ek : Bool)
    (he : r.eager = false) (hkind : m.kind = MetricKind.histogram)
    (hl : labels.all (fun p => label_allowed m p.1) = true) :
    ∃ m' r', observeBuckets m (some r) bs v labels ek = (none, m', some r') ∧
      m'.name = m.name ∧ m'.kind = m.kind ∧ m'.allowed_labels = m.allowed_labels ∧
      m'.sum = m.sum ∧ r'.eager = false ∧
      ∀ k : String, (∀ l, make_redis_key m "" "b" l ≠ k) →
        metric_type_key m ≠ k → metric_description_key m ≠ k →
        r'.buffer.lookup k = r.buffer.lookup k := by
  induction bs generalizing m r with
  | nil => exact ⟨m, r, rfl, rfl, rfl, rfl, rfl, he, fun k _ _ _ => rfl⟩
  | cons b rest ih =>
    by_cases hb : v ≤ b
    · obtain ⟨m1, r1, heq1, hname1, hkind1, hal1, hsum1, heag1, hpres1⟩ :=
        _add_observed_value_ok m r (toString b) labels ek he hkind hl
      have hl1 : labels.all (fun p => label_allowed m1 p.1) = true := by
        rw [List.all_eq_true] at hl ⊢
        intro p hp
        rw [label_allowed_congr hkind1 hal1]
        exact hl p hp
      obtain ⟨m2, r2, heq2, hname2, hkind2, hal2, hsum2, heag2, hpres2⟩ :=
        ih m1 r1 heag1 (hkind1.trans hkind) hl1
      refine ⟨m2, r2, ?_, hname2.trans hname1, hkind2.trans hkind1,
        hal2.trans hal1, hsum2.trans hsum1, heag2, ?_⟩
      · rw [observeBuckets_cons, if_pos hb, heq1]
        exact heq2
      · intro k hbk htk hdk
        have hbk1 : ∀ l, make_redis_key m1 "" "b" l ≠ k := fun l => by
          rw [make_redis_key_congr hname1]
          exact hbk l
        have htk1 : metric_type_key m1 ≠ k := by
          rw [metric_type_key, make_redis_key_congr hname1]
          exact htk
        have hdk1 : metric_description_key m1 ≠ k := by
          rw [metric_description_key, make_redis_key_congr hname1]
          exact hdk
        rw [hpres2 k hbk1 htk1 hdk1, hpres1 k hbk htk hdk]
    · obtain ⟨m2, r2, heq2, hname2, hkind2, hal2, hsum2, heag2, hpres2⟩ :=
        ih m r he hkind hl
      refine ⟨m2, r2, ?_, hname2, hkind2, hal2, hsum2, heag2, hpres2⟩
      rw [observeBuckets_cons, if_neg hb]
      exact heq2

/-- C6 (amended).  For every `Histogram.observe(value, labels)` call against
a non-eager registry, the buffer afterwards holds for the sum key
(`name:s:`) an increment-style intent — `set = false`, where the claim as
stated says absolute-set-style — carrying the new cumulative sum, and for
the total-count key (`name:c:`) an increment-style intent; both keys are
global per metric: they carry no label segment and do not depend on the
caller's labels. -/
theorem histogram_observe_sum_and_count_intents (m : MetricState) (r : RegState)
    (v : Int) (labels : List (String × String)) (ek : Bool)
    (he : r.eager = false) (hkind : m.kind = MetricKind.histogram)
    (hl : labels.all (fun p => label_allowed m p.1) = true) :
    ∃ m' r', observe m (some r) v labels ek = (none, m', some r') ∧
      r'.buffer.lookup (make_redis_key m "" "s" "") =
        some { key := make_redis_key m "" "s" "",
               value := Value.int (m.sum + v), set := false } ∧
      (r'.buffer.lookup (make_redis_key m "" "c" "")).map UpdateAction.set =
        some false := by
  obtain ⟨m1, r1, heqB, hname1, hkind1, hal1, hsum1, heag1, hpres1⟩ :=
    observeBuckets_ok m.buckets m r v labels ek he hkind hl
  obtain ⟨m3, r3, heqS, hname3, hkind3, hal3, hsum3, hcounts3, hsci3, heag3, hbufS⟩ :=
    propagate_shape ({ m1 with sum := m1.sum + v }) r1
      [{ key := make_redis_key m1 "" "s" "",
         value := Value.int (m1.sum + v), set := false }] ek heag1
      (by
        intro a ha
        rcases List.mem_singleton.mp ha with rfl
        exact make_redis_key_ne_no_labels _ "" "s" "")
  have hsumEq : _add_to_histogram_sum m1 (some r1) v ek = (none, m3, some r3) := heqS
  have hname3m : m3.name = m.name := hname3.trans hname1
  have hkind3m : m3.kind = MetricKind.histogram := (hkind3.trans hkind1).trans hkind
  obtain ⟨m4, r4, heq4, hname4, hkind4, hal4, hsum4, heag4, hpres4⟩ :=
    _add_observed_value_ok m3 r3 INFINITY_FOR_HISTOGRAM [] ek heag3 hkind3m rfl
  have hname4m : m4.name = m.name := hname4.trans hname3m
  obtain ⟨m5, r5, heq5, hname5, hkind5, hal5, hsum5, hcounts5, hsci5, heag5, hbufC⟩ :=
    propagate_shape m4 r4
      [{ key := make_redis_key m4 "" "c" "",
         value := Value.int ((m4.counts.lookup INF_COUNT_KEY).getD 0),
         set := false }] ek heag4
      (by
        intro a ha
        rcases List.mem_singleton.mp ha with rfl
        exact make_redis_key_ne_no_labels _ "" "c" "")
  have hincEq : _increase_total_count m3 (some r3) ek = (none, m5, some r5) := by
    unfold _increase_total_count
    rw [heq4]
    exact heq5
  have hstep2 : (match _add_to_histogram_sum m1 (some r1) v ek with
      | (some e, m2, r2) => (some e, m2, r2)
      | (none, m2, r2) => _increase_total_count m2 r2 ek) = (none, m5, some r5) := by
    rw [hsumEq]
    exact hincEq
  have hobs : observe m (some r) v labels ek = (none, m5, some r5) := by
    unfold observe
    rw [heqB]
    exact hstep2
  have hkeyS : make_redis_key m1 "" "s" "" = make_redis_key m "" "s" "" :=
    make_redis_key_congr hname1 _ _ _
  have hlook3 : r3.buffer.lookup (make_redis_key m "" "s" "") =
      some { key := make_redis_key m "" "s" "",
             value := Value.int (m.sum + v), set := false } := by
    rcases hbufS with hb | hb
    · rw [hb]
      simp only [List.foldl_cons, List.foldl_nil]
      rw [← hkeyS, lookup_updAssoc_self, hsum1]
    · rw [hb]
      simp only [List.cons_append, List.nil_append, List.foldl_cons, List.foldl_nil]
      have htne : make_redis_key m "" "s" "" ≠
          metric_type_key ({ m1 with sum := m1.sum + v } : MetricState) := by
        rw [metric_type_key, make_redis_key_congr
          (show ({ m1 with sum := m1.sum + v } : MetricState).name = m.name from hname1)]
        exact make_redis_key_ext_ne m "s" TYPE_EXTENSION_LETTER "" ""
          (by decide) (by decide) (by decide)
      have hdne : make_redis_key m "" "s" "" ≠
          metric_description_key ({ m1 with sum := m1.sum + v } : MetricState) := by
        rw [metric_description_key, make_redis_key_congr
          (show ({ m1 with sum := m1.sum + v } : MetricState).name = m.name from hname1)]
        exact make_redis_key_ext_ne m "s" DESCRIPTION_EXTENSION_LETTER "" ""
          (by decide) (by decide) (by decide)
      rw [lookup_updAssoc_ne _ _ _ _ hdne, lookup_updAssoc_ne _ _ _ _ htne,
        ← hkeyS, lookup_updAssoc_self, hsum1]
  have hlook4 : r4.buffer.lookup (make_redis_key m "" "s" "") =
      some { key := make_redis_key m "" "s" "",
             value := Value.int (m.sum + v), set := false } := by
    rw [hpres4 (make_redis_key m "" "s" "") ?_ ?_ ?_]
    · exact hlook3
    · intro l
      rw [make_redis_key_congr hname3m]
      exact make_redis_key_ext_ne m "b" "s" l "" (by decide) (by decide) (by decide)
    · rw [metric_type_key, make_redis_key_congr hname3m]
      exact make_redis_key_ext_ne m TYPE_EXTENSION_LETTER "s" "" ""
        (by decide) (by decide) (by decide)
    · rw [metric_description_key, make_redis_key_congr hname3m]
      exact make_redis_key_ext_ne m DESCRIPTION_EXTENSION_LETTER "s" "" ""
        (by decide) (by decide) (by decide)
  have hckey : make_redis_key m4 "" "c" "" = make_redis_key m "" "c" "" :=
    make_redis_key_congr hname4m _ _ _
  have hsne : make_redis_key m "" "s" "" ≠ make_redis_key m4 "" "c" "" := by
    rw [hckey]
    exact make_redis_key_ext_ne m "s" "c" "" "" (by decide) (by decide) (by decide)
  have htne4 : make_redis_key m "" "s" "" ≠ metric_type_key m4 := by
    rw [metric_type_key, make_redis_key_congr hname4m]
    exact make_redis_key_ext_ne m "s" TYPE_EXTENSION_LETTER "" ""
      (by decide) (by decide) (by decide)
  have hdne4 : make_redis_key m "" "s" "" ≠ metric_description_key m4 := by
    rw [metric_description_key, make_redis_key_congr hname4m]
    exact make_redis_key_ext_ne m "s" DESCRIPTION_EXTENSION_LETTER "" ""
      (by decide) (by decide) (by decide)
  have hctne : make_redis_key m "" "c" "" ≠ metric_type_key m4 := by
    rw [metric_type_key, make_redis_key_congr hname4m]
    exact make_redis_key_ext_ne m "c" TYPE_EXTENSION_LETTER "" ""
      (by decide) (by decide) (by decide)
  have hcdne : make_redis_key m "" "c" "" ≠ metric_description_key m4 := by
    rw [metric_description_key, make_redis_key_congr hname4m]
    exact make_redis_key_ext_ne m "c" DESCRIPTION_EXTENSION_LETTER "" ""
      (by decide) (by decide) (by decide)
  refine ⟨m5, r5, hobs, ?_, ?_⟩
  · rcases hbufC with hb | hb
    · rw [hb]
      simp only [List.foldl_cons, List.foldl_nil]
      rw [lookup_updAssoc_ne _ _ _ _ hsne]
      exact hlook4
    · rw [hb]
      simp only [List.cons_append, List.nil_append, List.foldl_cons, List.foldl_nil]
      rw [lookup_updAssoc_ne _ _ _ _ hdne4, lookup_updAssoc_ne _ _ _ _ htne4,
        lookup_updAssoc_ne _ _ _ _ hsne]
      exact hlook4
  · rcases hbufC with hb | hb
    · rw [hb]
      simp only [List.foldl_cons, List.foldl_nil]
      rw [← hckey, lookup_updAssoc_self]
      rfl
    · rw [hb]
      simp only [List.cons_append, List.nil_append, List.foldl_cons, List.foldl_nil]
      rw [lookup_updAssoc_ne _ _ _ _ hcdne, lookup_updAssoc_ne _ _ _ _ hctne,
        ← hckey, lookup_updAssoc_self]
      rfl

/-- A demo histogram for the C6 theorems. -/
def h_demo : MetricState :=
  (histogramNew "h" "A demo histogram." [1, 2] ["code"]).getD default

/-- A non-eager registry holding the demo histogram. -/
def h_reg : RegState := register c1_reg0 h_demo

/-- One concrete observation on the demo histogram. -/
def c6_obs : Option OpErr × MetricState × Option RegState :=
  observe h_demo (some h_reg) 1 [] true

/-- Counterexample to C6 as stated: after a concrete `observe(1)`, the
intent buffered for the sum key `h:s:` has `set = false` — an
increment-style intent carrying the cumulative sum — not the absolute-set
intent the claim asserts for the sum key. -/
theorem histogram_sum_intent_not_absolute_set :
    c6_obs.1 = none ∧
      c6_obs.2.2.bind
          (fun rr => rr.buffer.lookup (make_redis_key h_demo "" "s" "")) =
        some { key := make_redis_key h_demo "" "s" "", value := Value.int 1,
               set := false } := by decide

/-- Witness for C6 (amended) on the demo histogram. -/
theorem histogram_observe_intents_check :
    h_reg.eager = false ∧ h_demo.kind = MetricKind.histogram ∧
      ([] : List (String × String)).all (fun p => label_allowed h_demo p.1) = true ∧
      (∃ m' r', observe h_demo (some h_reg) 1 [] true = (none, m', some r') ∧
        r'.buffer.lookup (make_redis_key h_demo "" "s" "") =
          some { key := make_redis_key h_demo "" "s" "",
                 value := Value.int (h_demo.sum + 1), set := false } ∧
        (r'.buffer.lookup (make_redis_key h_demo "" "c" "")).map UpdateAction.set =
          some false) := by
  refine ⟨rfl, by decide, by decide, ?_⟩
  exact histogram_observe_sum_and_count_intents h_demo h_reg 1 [] true rfl
    (by decide) (by decide)

/-! Well-formedness of every key that reaches the registry buffer. -/

/-- A key holding at least the two `':'` separators that `make_redis_key`
always produces. -/
def keyWellFormed (k : String) : Bool := decide (2 ≤ k.data.count ':')

/-- Every key indexing the registry buffer is well formed (in particular, no
bare metric name without separators). -/
def bufferKeysWellFormed (r : RegState) : Bool :=
  r.buffer.all (fun p => keyWellFormed p.1)

theorem wellFormed_ne_no_labels {k : String} (h : 2 ≤ k.data.count ':') :
    k ≠ NO_LABELS_KEY := by
  intro he
  subst he
  exact absurd h (by decide)

theorem foldl_updAssoc_wf (acts : List UpdateAction)
    (b : List (String × UpdateAction))
    (hacts : ∀ a ∈ acts, 2 ≤ a.key.data.count ':')
    (hb : b.all (fun p => keyWellFormed p.1) = true) :
    (acts.foldl (fun bb item => updAssoc bb item.key item) b).all
      (fun p => keyWellFormed p.1) = true := by
  induction acts generalizing b with
  | nil => exact hb
  | cons a rest ih =>
    rw [List.foldl_cons]
    refine ih _ (fun x hx => hacts x (List.mem_cons_of_mem _ hx)) ?_
    rw [List.all_eq_true] at hb ⊢
    intro p hp
    rcases mem_updAssoc hp with rfl | hp
    · exact decide_eq_true (hacts a (List.mem_cons_self _ _))
    · exact hb p hp

theorem transfer_buffer_wf (r : RegState) (ek : Bool)
    (hb : bufferKeysWellFormed r = true) :
    bufferKeysWellFormed (transfer r ek).2 = true := by
  cases ek with
  | false => exact hb
  | true => rfl

theorem update_buffer_preserves_wf (r : RegState) (acts : List UpdateAction)
    (ek : Bool) (hacts : ∀ a ∈ acts, 2 ≤ a.key.data.count ':')
    (hbuf : bufferKeysWellFormed r = true) :
    bufferKeysWellFormed (update_buffer r acts ek).2 = true := by
  have hfold : bufferKeysWellFormed
      ({ r with buffer := acts.foldl (fun b item => updAssoc b item.key item) r.buffer } :
        RegState) = true :=
    foldl_updAssoc_wf acts r.buffer hacts hbuf
  rw [update_buffer]
  cases hreag : r.eager with
  | false =>
    rw [if_neg (by simp [hreag])]
    exact hfold
  | true =>
    rw [if_pos (by simp [hreag])]
    exact transfer_buffer_wf _ ek hfold

theorem propagate_some (m : MetricState) (r : RegState)
    (actions : List UpdateAction) (ek : Bool) :
    ∃ e m2 r2, propagate m (some r) actions ek = (e, m2, some r2) := by
  simp only [propagate]
  exact ⟨_, _, _, rfl⟩

theorem propagate_preserves_wf (m : MetricState) (r : RegState)
    (actions : List UpdateAction) (ek : Bool)
    (hacts : ∀ a ∈ actions, 2 ≤ a.key.data.count ':')
    (hbuf : bufferKeysWellFormed r = true) :
    ∀ r', (propagate m (some r) actions ek).2.2 = some r' →
      bufferKeysWellFormed r' = true := by
  intro r' hr'
  have hrw : rewrite_no_labels m.name actions = actions :=
    rewrite_no_labels_id _ _ (fun a ha => wellFormed_ne_no_labels (hacts a ha))
  cases hreg : m.registered_remotely with
  | true =>
    simp only [propagate, hreg, Bool.not_true, Bool.false_eq_true, if_false,
      Option.some.injEq, hrw] at hr'
    rw [← hr']
    exact update_buffer_preserves_wf _ actions ek hacts hbuf
  | false =>
    simp only [propagate, hreg, Bool.not_false, if_true, Option.some.injEq,
      hrw] at hr'
    rw [← hr']
    refine update_buffer_preserves_wf _ _ ek ?_ hbuf
    intro a ha
    rcases List.mem_append.mp ha with ha | ha
    · exact hacts a ha
    · rcases List.mem_cons.mp ha with rfl | ha
      · exact colon_count_make_redis_key _ _ _ _
      · rcases List.mem_cons.mp ha with rfl | ha
        · exact colon_count_make_redis_key _ _ _ _
        · exact absurd ha (List.not_mem_nil _)

theorem counter_inc_preserves_wf (m : MetricState) (r : RegState) (v : Int)
    (labels : List (String × String)) (ek : Bool)
    (hbuf : bufferKeysWellFormed r = true) :
    ∀ r', (counter_inc m (some r) v labels ek).2.2 = some r' →
      bufferKeysWellFormed r' = true := by
  intro r' hr'
  by_cases hv : v < 0
  · simp only [counter_inc, if_pos hv, Option.some.injEq] at hr'
    exact hr' ▸ hbuf
  · cases henc : _encode_labels m labels with
    | none =>
      simp only [counter_inc, if_neg hv, henc, Option.some.injEq] at hr'
      exact hr' ▸ hbuf
    | some key =>
      simp only [counter_inc, if_neg hv, henc] at hr'
      refine propagate_preserves_wf _ r _ ek ?_ hbuf r' hr'
      intro a ha
      rcases List.mem_singleton.mp ha with rfl
      exact colon_count_make_redis_key _ _ _ _

theorem gauge_set_preserves_wf (m : MetricState) (r : RegState) (v : Int)
    (labels : List (String × String)) (ek : Bool)
    (hbuf : bufferKeysWellFormed r = true) :
    ∀ r', (gauge_set m (some r) v labels ek).2.2 = some r' →
      bufferKeysWellFormed r' = true := by
  intro r' hr'
  cases henc : _encode_labels m labels with
  | none =>
    simp only [gauge_set, henc, Option.some.injEq] at hr'
    exact hr' ▸ hbuf
  | some key =>
    rcases propagate_some ({ m with counts := updAssoc m.counts key v }) r
      [{ key := make_redis_key ({ m with counts := updAssoc m.counts key v } :
            MetricState) "" "" key,
         value := Value.int v, set := true }] ek with ⟨e, m2, r2, hp⟩
    have hwf2 : bufferKeysWellFormed r2 = true := by
      refine propagate_preserves_wf _ r _ ek ?_ hbuf r2 (by rw [hp])
      intro a ha
      rcases List.mem_singleton.mp ha with rfl
      exact colon_count_make_redis_key _ _ _ _
    cases e with
    | none =>
      simp only [gauge_set, henc, hp, Option.map_some', Option.some.injEq] at hr'
      rw [← hr']
      exact hwf2
    | some e0 =>
      simp only [gauge_set, henc, hp, Option.some.injEq] at hr'
      exact hr' ▸ hwf2

theorem gauge_inc_preserves_wf (m : MetricState) (r : RegState) (v : Int)
    (labels : List (String × String)) (ek : Bool)
    (hbuf : bufferKeysWellFormed r = true) :
    ∀ r', (gauge_inc m (some r) v labels ek).2.2 = some r' →
      bufferKeysWellFormed r' = true := by
  intro r' hr'
  by_cases hv : v < 0
  · simp only [gauge_inc, if_pos hv, Option.some.injEq] at hr'
    exact hr' ▸ hbuf
  · cases henc : _encode_labels m labels with
    | none =>
      simp only [gauge_inc, if_neg hv, henc, Option.some.injEq] at hr'
      exact hr' ▸ hbuf
    | some key =>
      cases hs : _check_set_command_issued m key with
      | true =>
        simp only [gauge_inc, if_neg hv, henc, hs, if_true] at hr'
        exact gauge_set_preserves_wf m r _ labels ek hbuf r' hr'
      | false =>
        simp only [gauge_inc, if_neg hv, henc, hs, Bool.false_eq_true,
          if_false] at hr'
        refine propagate_preserves_wf _ r _ ek ?_ hbuf r' hr'
        intro a ha
        rcases List.mem_singleton.mp ha with rfl
        exact colon_count_make_redis_key _ _ _ _

theorem gauge_dec_preserves_wf (m : MetricState) (r : RegState) (v : Int)
    (labels : List (String × String)) (ek : Bool)
    (hbuf : bufferKeysWellFormed r = true) :
    ∀ r', (gauge_dec m (some r) v labels ek).2.2 = some r' →
      bufferKeysWellFormed r' = true := by
  intro r' hr'
  by_cases hv : v < 0
  · simp only [gauge_dec, if_pos hv, Option.some.injEq] at hr'
    exact hr' ▸ hbuf
  · cases henc : _encode_labels m labels with
    | none =>
      simp only [gauge_dec, if_neg hv, henc, Option.some.injEq] at hr'
      exact hr' ▸ hbuf
    | some key =>
      cases hs : _check_set_command_issued m key with
      | true =>
        simp only [gauge_dec, if_neg hv, henc, hs, if_true] at hr'
        exact gauge_set_preserves_wf m r _ labels ek hbuf r' hr'
      | false =>
        simp only [gauge_dec, if_neg hv, henc, hs, Bool.false_eq_true,
          if_false] at hr'
        refine propagate_preserves_wf _ r _ ek ?_ hbuf r' hr'
        intro a ha
        rcases List.mem_singleton.mp ha with rfl
        exact colon_count_make_redis_key _ _ _ _

theorem _add_observed_value_preserves_wf (m : MetricState) (r : RegState)
    (bucket : String) (labels : List (String × String)) (ek : Bool)
    (hbuf : bufferKeysWellFormed r = true) :
    ∀ r', (_add_observed_value m (some r) bucket labels ek).2.2 = some r' →
      bufferKeysWellFormed r' = true := by
  intro r' hr'
  cases henc : _encode_labels m (dictMerge [(HISTOGRAM_LABEL, bucket)] labels) with
  | none =>
    simp only [_add_observed_value, henc, Option.some.injEq] at hr'
    exact hr' ▸ hbuf
  | some ck =>
    simp only [_add_observed_value, henc] at hr'
    refine propagate_preserves_wf _ r _ ek ?_ hbuf r' hr'
    intro a ha
    rcases List.mem_singleton.mp ha with rfl
    exact colon_count_make_redis_key _ _ _ _

theorem _add_to_histogram_sum_preserves_wf (m : MetricState) (r : RegState)
    (v : Int) (ek : Bool) (hbuf : bufferKeysWellFormed r = true) :
    ∀ r', (_add_to_histogram_sum m (some r) v ek).2.2 = some r' →
      bufferKeysWellFormed r' = true := by
  intro r' hr'
  refine propagate_preserves_wf _ r _ ek ?_ hbuf r' hr'
  intro a ha
  rcases List.mem_singleton.mp ha with rfl
  exact colon_count_make_redis_key _ _ _ _

theorem _add_observed_value_none (m : MetricState) (bucket : String)
    (labels : List (String × String)) (ek : Bool) :
    (_add_observed_value m none bucket labels ek).2.2 = none := by
  cases henc : _encode_labels m (dictMerge [(HISTOGRAM_LABEL, bucket)] labels) with
  | none => simp only [_add_observed_value, henc]
  | some ck => simp only [_add_observed_value, henc, propagate]

theorem _increase_total_count_preserves_wf (m : MetricState) (r : RegState)
    (ek : Bool) (hbuf : bufferKeysWellFormed r = true) :
    ∀ r', (_increase_total_count m (some r) ek).2.2 = some r' →
      bufferKeysWellFormed r' = true := by
  intro r' hr'
  rcases h1 : _add_observed_value m (some r) INFINITY_FOR_HISTOGRAM [] ek with
    ⟨e1, m1, rr1⟩
  cases e1 with
  | some e0 =>
    have hr2 : rr1 = some r' := by
      have := hr'
      unfold _increase_total_count at this
      rw [h1] at this
      exact this
    exact _add_observed_value_preserves_wf m r _ [] ek hbuf r'
      (by rw [h1]; exact hr2)
  | none =>
    have hrB : (propagate m1 rr1
        [{ key := make_redis_key m1 "" "c" "",
           value := Value.int ((m1.counts.lookup INF_COUNT_KEY).getD 0),
           set := false }] ek).2.2 = some r' := by
      have := hr'
      unfold _increase_total_count at this
      rw [h1] at this
      exact this
    cases rr1 with
    | none =>
      have hcontra : (none : Option RegState) = some r' := hrB
      cases hcontra
    | some rr =>
      have hwfrr := _add_observed_value_preserves_wf m r _ [] ek hbuf rr
        (by rw [h1])
      refine propagate_preserves_wf _ rr _ ek ?_ hwfrr r' hrB
      intro a ha
      rcases List.mem_singleton.mp ha with rfl
      exact colon_count_make_redis_key _ _ _ _

theorem observeBuckets_none (bs : List Int) (m : MetricState) (v : Int)
    (labels : List (String × String)) (ek : Bool) :
    (observeBuckets m none bs v labels ek).2.2 = none := by
  induction bs generalizing m with
  | nil => rfl
  | cons b rest ih =>
    rw [observeBuckets_cons]
    by_cases hb : v ≤ b
    · rw [if_pos hb]
      rcases h1 : _add_observed_value m none (toString b) labels ek with
        ⟨e1, m1, rr1⟩
      have hnone : rr1 = none := by
        have := _add_observed_value_none m (toString b) labels ek
        rw [h1] at this
        exact this
      subst hnone
      cases e1 with
      | some e0 => rfl
      | none => exact ih m1
    · rw [if_neg hb]
      exact ih m

theorem observeBuckets_preserves_wf (bs : List Int) (m : MetricState)
    (r : RegState) (v : Int) (labels : List (String × String)) (ek : Bool) :
    bufferKeysWellFormed r = true →
    ∀ r', (observeBuckets m (some r) bs v labels ek).2.2 = some r' →
      bufferKeysWellFormed r' = true := by
  induction bs generalizing m r with
  | nil =>
    intro hbuf r' hr'
    have h : r = r' := by
      have : (some r : Option RegState) = some r' := hr'
      exact Option.some.inj this
    exact h ▸ hbuf
  | cons b rest ih =>
    intro hbuf r' hr'
    rw [observeBuckets_cons] at hr'
    by_cases hb : v ≤ b
    · rw [if_pos hb, ] at hr'
      rcases h1 : _add_observed_value m (some r) (toString b) labels ek with
        ⟨e1, m1, rr1⟩
      rw [h1] at hr'
      cases e1 with
      | some e0 =>
        have hr2 : rr1 = some r' := hr'
        exact _add_observed_value_preserves_wf m r _ labels ek hbuf r'
          (by rw [h1]; exact hr2)
      | none =>
        have hr2 : (observeBuckets m1 rr1 rest v labels ek).2.2 = some r' := hr'
        cases rr1 with
        | none =>
          rw [observeBuckets_none] at hr2
          cases hr2
        | some rr =>
          have hwfrr := _add_observed_value_preserves_wf m r _ labels ek hbuf rr
            (by rw [h1])
          exact ih m1 rr hwfrr r' hr2
    · rw [if_neg hb] at hr'
      exact ih m r hbuf r' hr'

theorem observe_preserves_wf (m : MetricState) (r : RegState) (v : Int)
    (labels : List (String × String)) (ek : Bool) :
    bufferKeysWellFormed r = true →
    ∀ r', (observe m (some r) v labels ek).2.2 = some r' →
      bufferKeysWellFormed r' = true := by
  intro hbuf r' hr'
  rcases h1 : observeBuckets m (some r) m.buckets v labels ek with ⟨e1, m1, rr1⟩
  rw [observe, h1] at hr'
  cases e1 with
  | some e0 =>
    have hr2 : rr1 = some r' := hr'
    exact observeBuckets_preserves_wf m.buckets m r v labels ek hbuf r'
      (by rw [h1]; exact hr2)
  | none =>
    cases rr1 with
    | none =>
      have hr2 : ((some OpErr.notRegistered,
          { m1 with sum := m1.sum + v }, (none : Option RegState)) :
            Option OpErr × MetricState × Option RegState).2.2 = some r' := hr'
      cases hr2
    | some rr =>
      have hwfrr := observeBuckets_preserves_wf m.buckets m r v labels ek hbuf rr
        (by rw [h1])
      rcases h2 : _add_to_histogram_sum m1 (some rr) v ek with ⟨e2, m2, rr2⟩
      have hrA : (match _add_to_histogram_sum m1 (some rr) v ek with
          | (some e, mm, rrr) => (some e, mm, rrr)
          | (none, mm, rrr) => _increase_total_count mm rrr ek).2.2 = some r' := hr'
      rw [h2] at hrA
      cases e2 with
      | some e0 =>
        have hrB : rr2 = some r' := hrA
        exact _add_to_histogram_sum_preserves_wf m1 rr v ek hwfrr r'
          (by rw [h2]; exact hrB)
      | none =>
        have hrB : (_increase_total_count m2 rr2 ek).2.2 = some r' := hrA
        cases rr2 with
        | none =>
          rcases h3 : _add_observed_value m2 none INFINITY_FOR_HISTOGRAM [] ek with
            ⟨e3, m3, rr3⟩
          have hnone : rr3 = none := by
            have := _add_observed_value_none m2 INFINITY_FOR_HISTOGRAM [] ek
            rw [h3] at this
            exact this
          subst hnone
          unfold _increase_total_count at hrB
          rw [h3] at hrB
          cases e3 with
          | some e0 => cases hrB
          | none =>
            have hcontra : (none : Option RegState) = some r' := hrB
            cases hcontra
        | some rr3 =>
          have hwf3 := _add_to_histogram_sum_preserves_wf m1 rr v ek hwfrr rr3
            (by rw [h2])
          exact _increase_total_count_preserves_wf m2 rr3 ek hwf3 r' hrB

/-- The metric operations that emit update intents. -/
inductive MetricOp where
  | counterInc (v : Int) (labels : List (String × String))
  | gaugeInc (v : Int) (labels : List (String × String))
  | gaugeDec (v : Int) (labels : List (String × String))
  | gaugeSet (v : Int) (labels : List (String × String))
  | histObserve (v : Int) (labels : List (String × String))

/-- Dispatch a `MetricOp` to its embedded operation. -/
def runOp (op : MetricOp) (m : MetricState) (reg? : Option RegState)
    (ek : Bool) : Option OpErr × MetricState × Option RegState :=
  match op with
  | .counterInc v labels => counter_inc m reg? v labels ek
  | .gaugeInc v labels => gauge_inc m reg? v labels ek
  | .gaugeDec v labels => gauge_dec m reg? v labels ek
  | .gaugeSet v labels => gauge_set m reg? v labels ek
  | .histObserve v labels => observe m reg? v labels ek

/-- C10.  Every key `make_redis_key` produces contains at least the two
`':'` separators of the `{name}:{extension}:{labels}` shape; any action list
whose keys all have that shape passes through `propagate`'s
sentinel-rewriting loop unchanged (the branch that rewrites a bare
`NO_LABELS_KEY` key to the plain metric name never fires for keys built by
`make_redis_key`); and every metric operation preserves the registry-buffer
invariant that all buffered keys contain at least two separators — so no
bare-name key is ever placed in the buffer. -/
theorem intent_keys_well_formed :
    (∀ (m : MetricState) (n e l : String),
        2 ≤ (make_redis_key m n e l).data.count ':') ∧
      (∀ (name : String) (actions : List UpdateAction),
        (∀ a ∈ actions, 2 ≤ a.key.data.count ':') →
          rewrite_no_labels name actions = actions) ∧
      (∀ (op : MetricOp) (m : MetricState) (r : RegState) (ek : Bool),
        bufferKeysWellFormed r = true →
        ∀ r', (runOp op m (some r) ek).2.2 = some r' →
          bufferKeysWellFormed r' = true) := by
  refine ⟨colon_count_make_redis_key, ?_, ?_⟩
  · intro name actions h
    exact rewrite_no_labels_id name actions
      (fun a ha => wellFormed_ne_no_labels (h a ha))
  · intro op m r ek hbuf r' hr'
    cases op with
    | counterInc v labels => exact counter_inc_preserves_wf m r v labels ek hbuf r' hr'
    | gaugeInc v labels => exact gauge_inc_preserves_wf m r v labels ek hbuf r' hr'
    | gaugeDec v labels => exact gauge_dec_preserves_wf m r v labels ek hbuf r' hr'
    | gaugeSet v labels => exact gauge_set_preserves_wf m r v labels ek hbuf r' hr'
    | histObserve v labels => exact observe_preserves_wf m r v labels ek hbuf r' hr'

/-- Witness for C10 at a concrete operation and registry. -/
theorem intent_keys_well_formed_check :
    bufferKeysWellFormed c1_reg1 = true ∧
      bufferKeysWellFormed
        ((runOp (MetricOp.counterInc 1 [("code", "7")]) c1_m0 (some c1_reg1)
            true).2.2.getD c1_reg1) = true := by
  refine ⟨by decide, ?_⟩
  exact intent_keys_well_formed.2.2 (MetricOp.counterInc 1 [("code", "7")])
    c1_m0 c1_reg1 true (by decide) _ (by decide)

end Instrumentor
